import Mathlib

/-!
# Workflow-Viewer: verification of the interactive graph-viewer component

Shallow embedding of the renderer (`src/renderer/src/main.ts`) and the main
process file loader (`src/main/index.ts`) of the Workflow-Viewer repository.

Modelling conventions:
* JavaScript strings are modelled as lists of UTF-16 code-unit values
  (`JStr := List Nat`); `charCodeAt` is the list element itself.
* JavaScript numbers used for geometry are modelled as rationals (`ℚ`);
  32-bit integer arithmetic (`Math.imul`, `>>> 0`) is modelled as `Nat`
  arithmetic with explicit `% 2 ^ 32`.
* DOM / engine state mutated by handlers is modelled as explicit state
  records; each event listener becomes a state-transition function, and
  `stopImmediatePropagation` is modelled by not invoking the handlers that
  were registered later on the same element.
-/

namespace WorkflowViewer

/-! ## Gesture state machine (src/renderer/src/main.ts, lines 1143-1428) -/

/-- `canvas.ds`: the viewport pan offset and zoom scale. -/
structure View where
  offsetX : ℚ
  offsetY : ℚ
  scale : ℚ
deriving DecidableEq, Repr

/-- A graph node as far as the gesture machine observes it: an identity and a
position (`node.pos`).  The list of these stands for the engine's node store;
TypeScript object references become lookups by `id`. -/
structure GNode where
  id : Nat
  posX : ℚ
  posY : ℚ
deriving DecidableEq, Repr

/-- `emptyClickCandidate` (line 1144). -/
structure EmptyClick where
  pointerId : Nat
  x : ℚ
  y : ℚ
deriving DecidableEq, Repr

/-- The `'pan' | 'node'` drag mode. -/
inductive DragMode
  | pan
  | node
deriving DecidableEq, Repr

/-- `dragCandidate` (line 1152). -/
structure DragCand where
  mode : DragMode
  pointerId : Nat
  startX : ℚ
  startY : ℚ
deriving DecidableEq, Repr

/-- One entry of `activeDrag.nodes`: a captured node reference together with
its position at drag start (line 1150). -/
structure CapturedNode where
  id : Nat
  x : ℚ
  y : ℚ
deriving DecidableEq, Repr

/-- `ActiveDrag` (lines 1148-1150). -/
inductive ActiveDrag
  | pan (pointerId : Nat) (startX startY offsetX offsetY : ℚ)
  | node (pointerId : Nat) (startX startY : ℚ) (nodes : List CapturedNode)
deriving DecidableEq, Repr

/-- The pointer id owning an active drag. -/
def ActiveDrag.pid : ActiveDrag → Nat
  | .pan pointerId _ _ _ _ => pointerId
  | .node pointerId _ _ _ => pointerId

/-- The mutable state read and written by the gesture listeners:
`spaceDown`, `emptyClickCandidate`, `dragCandidate`, `activeDrag`,
`overlayInteracting`, `canvas.ds`, the node store and
`canvas.selected_nodes` (as the list of selected node ids in
`Object.values` order). -/
structure GestureState where
  spaceDown : Bool
  emptyClickCandidate : Option EmptyClick
  dragCandidate : Option DragCand
  activeDrag : Option ActiveDrag
  overlayInteracting : Bool
  view : View
  nodes : List GNode
  selected : List Nat
deriving DecidableEq, Repr

/-- A pointer event as the handlers observe it: `pointerId`, `button`,
`clientX`, `clientY`, plus the outcome of the engine's hit tests
(`getNodeOnPos` / `getGroupOnPos` / title-bar geometry), which are external
engine capabilities, supplied as event data. -/
structure PointerEvt where
  pointerId : Nat
  button : Nat
  x : ℚ
  y : ℚ
  /-- `getNodeUnderPointer`: id of the node under the pointer, if any. -/
  nodeHit : Option Nat
  /-- whether the pointer position lies in that node's title-bar band
  (`isInNodeTitleBar`). -/
  inTitleBar : Bool
  /-- `getGroupUnderPointer`: whether a group is under the pointer. -/
  groupHit : Bool
deriving DecidableEq, Repr

/-- `DRAG_THRESHOLD_SQ` (line 1146). -/
def DRAG_THRESHOLD_SQ : ℚ := 9

/-- Position lookup in the node store (first node with the given id, as a
TypeScript object-reference lookup). -/
def getNodePos : List GNode → Nat → Option (ℚ × ℚ)
  | [], _ => none
  | n :: ns, i => if n.id = i then some (n.posX, n.posY) else getNodePos ns i

/-- In-place update of `node.pos` (both components are always written by the
drag handler). -/
def setNodePos : List GNode → Nat → ℚ → ℚ → List GNode
  | [], _, _, _ => []
  | n :: ns, i, px, py =>
      if n.id = i then { n with posX := px, posY := py } :: setNodePos ns i px py
      else n :: setNodePos ns i px py

/-- `beginPan` (lines 1192-1195): capture the current viewport offset. -/
def beginPan (st : GestureState) (pointerId : Nat) (startX startY : ℚ) : GestureState :=
  { st with activeDrag := some (.pan pointerId startX startY st.view.offsetX st.view.offsetY) }

/-- The captured-node list built by `beginNodeDrag` from
`canvas.selected_nodes`: each selected node reference with its current
position. -/
def capturedSelection (st : GestureState) : List CapturedNode :=
  st.selected.filterMap (fun i =>
    (st.nodes.find? (fun n => n.id = i)).map (fun n => ⟨n.id, n.posX, n.posY⟩))

/-- `beginNodeDrag` (lines 1197-1212): capture every selected node's current
position; with no selected nodes it falls back to `beginPan`. -/
def beginNodeDrag (st : GestureState) (pointerId : Nat) (startX startY : ℚ) : GestureState :=
  let captured := capturedSelection st
  if captured.isEmpty then beginPan st pointerId startX startY
  else { st with activeDrag := some (.node pointerId startX startY captured) }

/-- The `blur` listener (lines 1221-1226): clears `spaceDown`,
`dragCandidate` and `activeDrag` (the cursor update has no modelled state). -/
def onWindowBlur (st : GestureState) : GestureState :=
  { st with spaceDown := false, dragCandidate := none, activeDrag := none }

/-- The `keydown` listener for Space (lines 1228-1235). -/
def onSpaceKeyDown (st : GestureState) : GestureState :=
  { st with spaceDown := true }

/-- The `keyup` listener for Space (lines 1237-1241). -/
def onSpaceKeyUp (st : GestureState) : GestureState :=
  { st with spaceDown := false }

/-- The active-drag `pointermove` body (lines 1276-1293): pan moves the
viewport offset by the scale-divided displacement; node drag moves every
captured node by the scale-divided displacement relative to its captured
start position.  Redraw and view persistence have no gesture-state effect. -/
def applyActiveDragMove (st : GestureState) (ad : ActiveDrag) (ev : PointerEvt) : GestureState :=
  match ad with
  | .pan _ sx sy ox oy =>
      let dx := ev.x - sx
      let dy := ev.y - sy
      { st with view := { st.view with
          offsetX := ox + dx / st.view.scale
          offsetY := oy + dy / st.view.scale } }
  | .node _ sx sy captured =>
      let dx := ev.x - sx
      let dy := ev.y - sy
      { st with nodes := captured.foldl (fun acc c =>
          setNodePos acc c.id (c.x + dx / st.view.scale) (c.y + dy / st.view.scale)) st.nodes }

/-- The empty-click `pointermove` listener (lines 1370-1380): a move of the
candidate's pointer beyond the squared threshold disarms the candidate. -/
def emptyClickMoveHandler (st : GestureState) (ev : PointerEvt) : GestureState :=
  match st.emptyClickCandidate with
  | none => st
  | some ec =>
      if ev.pointerId ≠ ec.pointerId then st
      else
        let dx := ev.x - ec.x
        let dy := ev.y - ec.y
        if dx * dx + dy * dy > 9 then { st with emptyClickCandidate := none } else st

/-- The drag-promotion `pointermove` listener (lines 1321-1344).  Early
`return`s fall through to the empty-click move listener registered after it;
a successful promotion calls `stopImmediatePropagation`, so that listener is
skipped. -/
def promotionHandler (st : GestureState) (ev : PointerEvt) : GestureState :=
  match st.dragCandidate with
  | none => emptyClickMoveHandler st ev
  | some dc =>
      if ev.pointerId ≠ dc.pointerId then emptyClickMoveHandler st ev
      else if st.activeDrag.isSome then emptyClickMoveHandler st ev
      else
        let dx := ev.x - dc.startX
        let dy := ev.y - dc.startY
        if dx * dx + dy * dy ≤ DRAG_THRESHOLD_SQ then emptyClickMoveHandler st ev
        else if st.overlayInteracting then emptyClickMoveHandler st ev
        else
          let st1 :=
            match dc.mode with
            | .node => beginNodeDrag st ev.pointerId dc.startX dc.startY
            | .pan => beginPan st ev.pointerId dc.startX dc.startY
          { st1 with dragCandidate := none, emptyClickCandidate := none }

/-- Dispatch of one `pointermove` through the capture listeners in
registration order: the active-drag listener (line 1270, stops propagation
when it owns the pointer), then the promotion listener (line 1321), then the
empty-click listener (line 1370). -/
def onPointerMove (st : GestureState) (ev : PointerEvt) : GestureState :=
  match st.activeDrag with
  | some ad =>
      if ev.pointerId = ad.pid then applyActiveDragMove st ad ev
      else promotionHandler st ev
  | none => promotionHandler st ev

/-- `isEmptySpaceClick` (lines 1346-1359). -/
def isEmptySpaceClick (st : GestureState) (ev : PointerEvt) : Bool :=
  if ev.button ≠ 0 then false
  else if st.spaceDown then false
  else
    match st.activeDrag with
    | some (.pan _ _ _ _ _) => false
    | _ => ev.nodeHit.isNone && !ev.groupHit

/-- The empty-click arming `pointerdown` listener (lines 1361-1368). -/
def emptyClickDownHandler (st : GestureState) (ev : PointerEvt) : GestureState :=
  if isEmptySpaceClick st ev then
    { st with emptyClickCandidate := some ⟨ev.pointerId, ev.x, ev.y⟩ }
  else st

/-- The LMB drag-candidate `pointerdown` listener (lines 1305-1319). -/
def candidateDownHandler (st : GestureState) (ev : PointerEvt) : GestureState :=
  if ev.button ≠ 0 then emptyClickDownHandler st ev
  else if st.spaceDown then emptyClickDownHandler st ev
  else if st.activeDrag.isSome then emptyClickDownHandler st ev
  else
    let mode : Option DragMode :=
      match ev.nodeHit with
      | some id =>
          if st.selected.contains id && ev.inTitleBar then some .node else none
      | none => if ev.groupHit then none else some .pan
    let st1 :=
      { st with dragCandidate := mode.map (fun m => ⟨m, ev.pointerId, ev.x, ev.y⟩) }
    emptyClickDownHandler st1 ev

/-- Dispatch of one `pointerdown`: the immediate-pan listener (line 1243,
middle button or Space+primary, stops propagation), then the drag-candidate
listener, then the empty-click arming listener. -/
def onPointerDown (st : GestureState) (ev : PointerEvt) : GestureState :=
  if ev.button = 1 || (st.spaceDown && ev.button = 0) then
    beginPan { st with dragCandidate := none } ev.pointerId ev.x ev.y
  else
    candidateDownHandler st ev

/-- The drag-clearing part of `pointerup` / `pointercancel`
(lines 1398-1428). -/
def dragUpHandler (st : GestureState) (ev : PointerEvt) : GestureState :=
  match st.activeDrag with
  | some ad =>
      if ev.pointerId = ad.pid then { st with activeDrag := none, dragCandidate := none }
      else
        match st.dragCandidate with
        | some dc => if ev.pointerId = dc.pointerId then { st with dragCandidate := none } else st
        | none => st
  | none =>
      match st.dragCandidate with
      | some dc => if ev.pointerId = dc.pointerId then { st with dragCandidate := none } else st
      | none => st

/-- Dispatch of one `pointerup`: the empty-click resolution listener
(line 1382, deselects everything when the candidate survives), then the
drag-clearing listener. -/
def onPointerUp (st : GestureState) (ev : PointerEvt) : GestureState :=
  let st1 :=
    match st.emptyClickCandidate with
    | some ec =>
        if ev.pointerId = ec.pointerId then
          { st with emptyClickCandidate := none, selected := [] }
        else st
    | none => st
  dragUpHandler st1 ev

/-! ## JavaScript strings (shared infrastructure)

A JavaScript string is modelled as its list of UTF-16 code-unit values
(`JStr`).  Case mapping is the simple ASCII mapping, which agrees with
`String.prototype.toUpperCase` / `toLowerCase` on every character the
colour registry's palette keys and word-regex involve. -/

/-- JavaScript string as a list of UTF-16 code units. -/
abbrev JStr := List Nat

/-- Code units of a Lean string literal, for writing `JStr` constants. -/
def jstr (s : String) : JStr := s.data.map Char.toNat

/-- JavaScript whitespace (the characters relevant to `String.prototype.trim`:
space, tab, LF, VT, FF, CR, NBSP). -/
def isWsCode (c : Nat) : Bool :=
  (c = 32) || (c = 9) || (c = 10) || (c = 11) || (c = 12) || (c = 13) || (c = 160)

/-- ASCII upper-casing of one code unit.  This agrees with
`String.prototype.toUpperCase` exactly on ASCII code units (< 128); JS
Unicode special casing (e.g. "ß".toUpperCase() = "SS", a one-to-two
mapping) lies outside it, so any theorem whose truth depends on the
interaction of upper- and lower-casing is stated with an explicit
ASCII hypothesis on its inputs, on which domain this map is exact. -/
def jsToUpperCode (c : Nat) : Nat := if 97 ≤ c ∧ c ≤ 122 then c - 32 else c

/-- ASCII lower-casing of one code unit.  This agrees with
`String.prototype.toLowerCase` exactly on ASCII code units (< 128); JS
Unicode mappings (e.g. "ẞ".toLowerCase() = "ß") lie outside it — see
the remark on `jsToUpperCode`. -/
def jsToLowerCode (c : Nat) : Nat := if 65 ≤ c ∧ c ≤ 90 then c + 32 else c

/-- `String.prototype.toUpperCase`, exact on ASCII strings. -/
def jsToUpper (s : JStr) : JStr := s.map jsToUpperCode

/-- `String.prototype.toLowerCase`, exact on ASCII strings. -/
def jsToLower (s : JStr) : JStr := s.map jsToLowerCode

/-- Drop the maximal all-`p` suffix (used for `trim` and `trimEnd`). -/
def dropWhileEnd (p : Nat → Bool) : List Nat → List Nat
  | [] => []
  | c :: tl =>
      let r := dropWhileEnd p tl
      if r.isEmpty && p c then [] else c :: r

/-- `String.prototype.trim`. -/
def jsTrim (s : JStr) : JStr := dropWhileEnd isWsCode (s.dropWhile isWsCode)

/-- `String.prototype.trimEnd`. -/
def jsTrimEnd (s : JStr) : JStr := dropWhileEnd isWsCode s

/-- Membership in the character class of `/^[a-z0-9_]+$/i`. -/
def isWordCode (c : Nat) : Bool :=
  (97 ≤ c && c ≤ 122) || (65 ≤ c && c ≤ 90) || (48 ≤ c && c ≤ 57) || (c = 95)

/-- `/^[a-z0-9_]+$/i.test s` (the `+` forces nonemptiness). -/
def matchesWordRegex (s : JStr) : Bool := !s.isEmpty && s.all isWordCode

/-! ## Type-Colour Registry (src/renderer/src/main.ts, lines 41-171)

JavaScript float arithmetic in the HSL→RGB conversion is modelled by exact
fraction arithmetic on `Frac` (an unreduced `Int` numerator / denominator
pair, kept kernel-computable; every denominator arising in the colour
pipeline is positive, which the comparison and floor operations assume). -/

/-- Exact unreduced fraction standing in for a JavaScript number. -/
structure Frac where
  num : Int
  den : Int
deriving DecidableEq, Repr

instance : Add Frac := ⟨fun a b => ⟨a.num * b.den + b.num * a.den, a.den * b.den⟩⟩

instance : Neg Frac := ⟨fun a => ⟨-a.num, a.den⟩⟩

instance : Sub Frac := ⟨fun a b => a + -b⟩

instance : Mul Frac := ⟨fun a b => ⟨a.num * b.num, a.den * b.den⟩⟩

instance : Div Frac := ⟨fun a b => ⟨a.num * b.den, a.den * b.num⟩⟩

instance (n : Nat) : OfNat Frac n := ⟨⟨Int.ofNat n, 1⟩⟩

/-- `Math.abs` (valid for positive denominators). -/
def Frac.fabs (a : Frac) : Frac := ⟨Int.ofNat a.num.natAbs, Int.ofNat a.den.natAbs⟩

/-- Boolean `≤` comparison (valid for positive denominators). -/
def Frac.ble (a b : Frac) : Bool := decide (a.num * b.den ≤ b.num * a.den)

/-- Boolean `<` comparison (valid for positive denominators). -/
def Frac.blt (a b : Frac) : Bool := decide (a.num * b.den < b.num * a.den)

/-- `Math.floor` (valid for positive denominators). -/
def Frac.floor (a : Frac) : Int := a.num.fdiv a.den

/-- `Math.round`: round half toward positive infinity. -/
def Frac.round (a : Frac) : Int := (a + 1 / 2).floor

/-- JavaScript `%` for the nonnegative operands used on `hh % 2`. -/
def Frac.mod2 (a : Frac) : Frac := a - 2 * ⟨(a / 2).floor, 1⟩

/-- An RGB triple of JavaScript numbers (`Rgb` in the source). -/
structure RgbF where
  r : Frac
  g : Frac
  b : Frac
deriving DecidableEq, Repr

/-- `clampByte` (lines 57-59): `Math.max(0, Math.min(255, Math.round(v)))`. -/
def clampByte (v : Frac) : Nat := (max 0 (min 255 v.round)).toNat

/-- `hslToRgb` (lines 89-117). -/
def hslToRgb (h s l : Frac) : RgbF :=
  let c := (1 - (2 * l - 1).fabs) * s
  let hh := h / 60
  let x := c * (1 - (hh.mod2 - 1).fabs)
  let rgb1 : Frac × Frac × Frac :=
    if (Frac.ble 0 hh && Frac.blt hh 1) then (c, x, 0)
    else if (Frac.ble 1 hh && Frac.blt hh 2) then (x, c, 0)
    else if (Frac.ble 2 hh && Frac.blt hh 3) then (0, c, x)
    else if (Frac.ble 3 hh && Frac.blt hh 4) then (0, x, c)
    else if (Frac.ble 4 hh && Frac.blt hh 5) then (x, 0, c)
    else (c, 0, x)
  let m := l - c / 2
  ⟨(rgb1.1 + m) * 255, (rgb1.2.1 + m) * 255, (rgb1.2.2 + m) * 255⟩

/-- Hex digit code unit for a value below 16 (lower-case, as
`Number.prototype.toString(16)` produces). -/
def hexDigitCode (n : Nat) : Nat := if n < 10 then 48 + n else 87 + n

/-- The two hex digits of a clamped byte (`toString(16).padStart(2, '0')`). -/
def byteToHex (v : Frac) : List Nat :=
  let b := clampByte v
  [hexDigitCode (b / 16), hexDigitCode (b % 16)]

/-- `rgbToHex` (lines 69-72). -/
def rgbToHex (rgb : RgbF) : JStr :=
  35 :: (byteToHex rgb.r ++ byteToHex rgb.g ++ byteToHex rgb.b)

/-- `fnv1a32` (lines 80-87).  `Math.imul` and the trailing `>>> 0` are
modelled by keeping the running hash as its residue mod `2 ^ 32`, which
tracks the 32-bit JavaScript value exactly. -/
def fnv1a32 (s : JStr) : Nat :=
  s.foldl (fun h c => ((h ^^^ c) * 16777619) % 4294967296) 2166136261

/-- `canonicalizeType` (lines 119-124): trim; an empty result is returned
as-is (falsy guard), a name matching the word regex is upper-cased,
anything else is returned as trimmed. -/
def canonicalizeType (t : JStr) : JStr :=
  if (jsTrim t).isEmpty then jsTrim t
  else if matchesWordRegex (jsTrim t) then jsToUpper (jsTrim t)
  else jsTrim t

/-- `BASE_TYPE_COLORS` (lines 41-55) as an association list. -/
def BASE_TYPE_COLOR_LIST : List (JStr × JStr) :=
  [(jstr "MODEL", jstr "#58a6ff"),
   (jstr "CLIP", jstr "#a371f7"),
   (jstr "VAE", jstr "#ff7b72"),
   (jstr "IMAGE", jstr "#56d364"),
   (jstr "LATENT", jstr "#d29922"),
   (jstr "CONDITIONING", jstr "#f85149"),
   (jstr "MASK", jstr "#79c0ff"),
   (jstr "CONTROL_NET", jstr "#db6d28"),
   (jstr "INT", jstr "#9cdcfe"),
   (jstr "FLOAT", jstr "#b5cea8"),
   (jstr "STRING", jstr "#ce9178"),
   (jstr "BOOLEAN", jstr "#4ec9b0"),
   (jstr "ANY", jstr "#c9d1d9")]

/-- Palette lookup, `undefined` becoming `none`. -/
def baseTypeColor (k : JStr) : Option JStr :=
  (BASE_TYPE_COLOR_LIST.find? (fun e => e.1 = k)).map (fun e => e.2)

/-- The `??` fallback chain of `stableTypeColor` (lines 128-134): palette hits
for the canonical name, its case variants, the raw name and its case
variants, first non-`undefined` value winning. -/
def baseHitChain (t canonical : JStr) : Option JStr :=
  match baseTypeColor canonical with
  | some c => some c
  | none =>
    match baseTypeColor (jsToUpper canonical) with
    | some c => some c
    | none =>
      match baseTypeColor (jsToLower canonical) with
      | some c => some c
      | none =>
        match baseTypeColor t with
        | some c => some c
        | none =>
          match baseTypeColor (jsToUpper t) with
          | some c => some c
          | none => baseTypeColor (jsToLower t)

/-- `stableTypeColor` (lines 126-142): palette hit if any, else the FNV-1a
hash of the canonical name maps `hash mod 360` to a hue at saturation 0.62
and lightness 0.55, converted HSL→RGB→hex. -/
def stableTypeColor (t : JStr) : JStr :=
  match baseHitChain t (canonicalizeType t) with
  | some hit => hit
  | none =>
      rgbToHex (hslToRgb ⟨Int.ofNat (fnv1a32 (canonicalizeType t) % 360), 1⟩
        (62 / 100) (55 / 100))

/-- The dynamic colour table (`LGraphCanvas.link_type_colors`), as an
association list with JavaScript-object update semantics.  The source
mirrors every write into the engine's two `default_connection_color`
tables (the off-variant dimmed by `dimHex`); the claims are about the
type-colour table itself, so those parallel writes are not modelled. -/
abbrev ColorTable := List (JStr × JStr)

/-- Property read, `undefined` becoming `none`. -/
def tblGet (tbl : ColorTable) (k : JStr) : Option JStr :=
  (tbl.find? (fun e => e.1 = k)).map (fun e => e.2)

/-- Property write: replace an existing key in place, else append. -/
def tblSet : ColorTable → JStr → JStr → ColorTable
  | [], k, v => [(k, v)]
  | e :: tl, k, v => if e.1 = k then (k, v) :: tl else e :: tblSet tl k v

/-- The key set of `ensureTypeColors` (line 145): the raw name, its
canonicalization and its case variants, empty strings removed
(`filter(Boolean)`), deduplicated in insertion order (`new Set`). -/
def ensureKeys (t : JStr) : List JStr :=
  ([t, canonicalizeType t, jsToUpper t, jsToLower t].filter (fun k => !k.isEmpty)).foldl
    (fun acc k => if acc.any (fun x => x = k) then acc else acc ++ [k]) []

/-- The colour chosen by `ensureTypeColors` (lines 146-147): the colour of
the first key variant already present (colour strings are nonempty, hence
truthy), else a fresh stable colour. -/
def ensureColor (tbl : ColorTable) (t : JStr) : JStr :=
  match (ensureKeys t).findSome? (fun k => tblGet tbl k) with
  | some c => c
  | none => stableTypeColor t

/-- `ensureTypeColors` (lines 144-157): write the chosen colour under every
key variant. -/
def ensureTypeColors (tbl : ColorTable) (t : JStr) : ColorTable :=
  (ensureKeys t).foldl (fun acc k => tblSet acc k (ensureColor tbl t)) tbl

/-- A sequence of `ensureTypeColors` registrations starting from the empty
table (as driven by `registerWorkflowTypeColors` and
`loadWorkflowIntoGraph`). -/
def runEnsureTypeColors (ts : List JStr) : ColorTable :=
  ts.foldl ensureTypeColors []

/-! ## File loader (src/main/index.ts, lines 67-178)

The loader runs in the host process; `readFile` hands it the file bytes.
Byte strings decoded as latin1 are code-unit-identical to their byte
values, and UTF-8 decoding of an iTXt value affects only chunk values,
never chunk keys, so the text table is modelled as byte lists on both
sides.  `JSON.parse` is a host builtin modelled by a small recursive
JSON reader producing the `Json` tree below. -/

/-- A parsed JSON document (number tokens are kept raw: the viewer treats
the workflow document as opaque data). -/
inductive Json where
  | null
  | bool (b : Bool)
  | num (raw : JStr)
  | str (s : JStr)
  | arr (items : List Json)
  | obj (fields : List (JStr × Json))

/-- JSON whitespace. -/
def isJsonWs (c : Nat) : Bool := (c = 32) || (c = 9) || (c = 10) || (c = 13)

/-- Hex digit value. -/
def hexVal (c : Nat) : Option Nat :=
  if 48 ≤ c ∧ c ≤ 57 then some (c - 48)
  else if 97 ≤ c ∧ c ≤ 102 then some (c - 87)
  else if 65 ≤ c ∧ c ≤ 70 then some (c - 55)
  else none

/-- Parse the body of a JSON string after the opening quote, returning the
decoded code units and the rest after the closing quote. -/
def parseJsonString (fuel : Nat) (s : JStr) : Option (JStr × JStr) :=
  match fuel, s with
  | 0, _ => none
  | _, [] => none
  | fuel + 1, c :: rest =>
      if c = 34 then some ([], rest)
      else if c = 92 then
        match rest with
        | [] => none
        | e :: rest2 =>
            let decoded : Option (Nat × JStr) :=
              if e = 34 then some (34, rest2)
              else if e = 92 then some (92, rest2)
              else if e = 47 then some (47, rest2)
              else if e = 98 then some (8, rest2)
              else if e = 102 then some (12, rest2)
              else if e = 110 then some (10, rest2)
              else if e = 114 then some (13, rest2)
              else if e = 116 then some (9, rest2)
              else if e = 117 then
                match rest2 with
                | h1 :: h2 :: h3 :: h4 :: rest3 =>
                    match hexVal h1, hexVal h2, hexVal h3, hexVal h4 with
                    | some v1, some v2, some v3, some v4 =>
                        some (v1 * 4096 + v2 * 256 + v3 * 16 + v4, rest3)
                    | _, _, _, _ => none
                | _ => none
              else none
            match decoded with
            | none => none
            | some (u, rest3) =>
                match parseJsonString fuel rest3 with
                | none => none
                | some (tail, rest4) => some (u :: tail, rest4)
      else if c < 32 then none
      else
        match parseJsonString fuel rest with
        | none => none
        | some (tail, rest2) => some (c :: tail, rest2)

/-- Consume a JSON number token. -/
def parseJsonNumber (s : JStr) : Option (JStr × JStr) :=
  let afterSign := if s.headD 0 = 45 then (s.take 1, s.drop 1) else ([], s)
  let intPart := afterSign.2.takeWhile (fun c => 48 ≤ c && c ≤ 57)
  if intPart.isEmpty then none
  else
    let rest1 := afterSign.2.drop intPart.length
    let fracPart :=
      if rest1.headD 0 = 46 then
        let ds := (rest1.drop 1).takeWhile (fun c => 48 ≤ c && c ≤ 57)
        if ds.isEmpty then none else some (46 :: ds)
      else some []
    match fracPart with
    | none => none
    | some fp =>
        let rest2 := rest1.drop fp.length
        let expPart :=
          if rest2.headD 0 = 101 ∨ rest2.headD 0 = 69 then
            let sgn := if rest2.getD 1 0 = 43 ∨ rest2.getD 1 0 = 45 then 1 else 0
            let ds := (rest2.drop (1 + sgn)).takeWhile (fun c => 48 ≤ c && c ≤ 57)
            if ds.isEmpty then none else some (rest2.take (1 + sgn) ++ ds)
          else some []
        match expPart with
        | none => none
        | some ep =>
            let tok := afterSign.1 ++ intPart ++ fp ++ ep
            some (tok, s.drop tok.length)

/-- The mode of the single-function JSON reader: a value, the remaining
items of an array, or the remaining fields of an object (one function so
the recursion is structural on fuel and kernel-computable). -/
inductive JsonParserMode where
  | value
  | items (acc : List Json)
  | fields (acc : List (JStr × Json))

/-- Recursive-descent JSON reader (whitespace before each token already
skipped by the caller positions below). -/
def parseJsonAux : Nat → JsonParserMode → JStr → Option (Json × JStr)
  | 0, _, _ => none
  | fuel + 1, .value, s =>
      match s with
      | [] => none
      | c :: rest =>
          if c = 110 then
            if rest.take 3 = jstr "ull" then some (.null, rest.drop 3) else none
          else if c = 116 then
            if rest.take 3 = jstr "rue" then some (.bool true, rest.drop 3) else none
          else if c = 102 then
            if rest.take 4 = jstr "alse" then some (.bool false, rest.drop 4) else none
          else if c = 34 then
            match parseJsonString fuel rest with
            | none => none
            | some (str, rest2) => some (.str str, rest2)
          else if c = 91 then
            parseJsonAux fuel (.items []) (rest.dropWhile isJsonWs)
          else if c = 123 then
            parseJsonAux fuel (.fields []) (rest.dropWhile isJsonWs)
          else
            match parseJsonNumber s with
            | none => none
            | some (tok, rest2) => some (.num tok, rest2)
  | fuel + 1, .items acc, s =>
      match s with
      | 93 :: rest =>
          if acc.isEmpty then some (.arr [], rest) else none
      | _ =>
          match parseJsonAux fuel .value s with
          | none => none
          | some (v, rest) =>
              match rest.dropWhile isJsonWs with
              | 44 :: rest2 => parseJsonAux fuel (.items (acc ++ [v])) (rest2.dropWhile isJsonWs)
              | 93 :: rest2 => some (.arr (acc ++ [v]), rest2)
              | _ => none
  | fuel + 1, .fields acc, s =>
      match s with
      | 125 :: rest =>
          if acc.isEmpty then some (.obj [], rest) else none
      | 34 :: rest =>
          match parseJsonString fuel rest with
          | none => none
          | some (key, rest2) =>
              match rest2.dropWhile isJsonWs with
              | 58 :: rest3 =>
                  match parseJsonAux fuel .value (rest3.dropWhile isJsonWs) with
                  | none => none
                  | some (v, rest4) =>
                      match rest4.dropWhile isJsonWs with
                      | 44 :: rest5 =>
                          parseJsonAux fuel (.fields (acc ++ [(key, v)]))
                            (rest5.dropWhile isJsonWs)
                      | 125 :: rest5 => some (.obj (acc ++ [(key, v)]), rest5)
                      | _ => none
              | _ => none
      | _ => none

/-- `JSON.parse`: parse one value, allowing surrounding whitespace and
rejecting trailing input (a `none` models the host's thrown SyntaxError).
The fuel bounds the reader's call depth, which one value plus one token of
input always keeps below twice the input length. -/
def jsJsonParse (s : JStr) : Option Json :=
  match parseJsonAux (2 * s.length + 2) .value (s.dropWhile isJsonWs) with
  | none => none
  | some (v, rest) => if (rest.dropWhile isJsonWs).isEmpty then some v else none

/-- `parseWorkflowFromAny` (lines 137-143): a string whose trimmed form
starts with a brace or bracket is parsed as JSON (a parse failure escapes
to the caller's catch, carrying the host's SyntaxError text, which the
placeholder message stands in for); anything else passes through. -/
def parseWorkflowFromAny (v : Json) : Except JStr Json :=
  match v with
  | .str s =>
      if (jsTrim s).headD 0 = 123 ∨ (jsTrim s).headD 0 = 91 then
        match jsJsonParse (jsTrim s) with
        | some j => .ok j
        | none => .error (jstr "Unexpected token in JSON")
      else .ok v
  | _ => .ok v

/-- `buffer.readUInt32BE`. -/
def readUInt32BE (buf : List Nat) (off : Nat) : Nat :=
  (buf.getD off 0) * 16777216 + (buf.getD (off + 1) 0) * 65536 +
    (buf.getD (off + 2) 0) * 256 + buf.getD (off + 3) 0

/-- Modelled from the spec: the host `zlib.inflateSync` used for
compressed iTXt payloads ("optionally zlib-inflated") — the claims never
inspect an inflated value, only which chunk keys reach the text table, so
successful inflation returning the raw payload stands in for the host
implementation. -/
def jsInflateSync (b : List Nat) : Option (List Nat) := some b

/-- One `tEXt` chunk body: a null separates key from value; a missing or
leading null drops the chunk. -/
def pngTextChunkInsert (data : List Nat) (acc : List (JStr × JStr)) :
    List (JStr × JStr) :=
  match data.findIdx? (fun c => c = 0) with
  | none => acc
  | some i =>
      if i = 0 then acc
      else tblSet acc (data.take i) (data.drop (i + 1))

/-- One `iTXt` chunk body: key, compression flag and method, language tag,
translated keyword, then the value (inflated when the flag is 1; an
inflation failure drops the chunk). -/
def pngItxtChunkInsert (data : List Nat) (acc : List (JStr × JStr)) :
    List (JStr × JStr) :=
  match data.findIdx? (fun c => c = 0) with
  | none => acc
  | some keyEnd =>
      if keyEnd = 0 then acc
      else
        let key := data.take keyEnd
        let i1 := keyEnd + 1
        let compressionFlag := data.getD i1 0
        let i2 := i1 + 2
        match (data.drop i2).findIdx? (fun c => c = 0) with
        | none => acc
        | some langLen =>
            let i3 := i2 + langLen + 1
            match (data.drop i3).findIdx? (fun c => c = 0) with
            | none => acc
            | some trLen =>
                let i4 := i3 + trLen + 1
                let valueBytes := data.drop i4
                if compressionFlag = 1 then
                  match jsInflateSync valueBytes with
                  | none => acc
                  | some v => tblSet acc key v
                else tblSet acc key valueBytes

/-- The chunk-walking loop of `parsePngTextChunks` (lines 77-132).  The
structural fuel only bounds the recursion: each iteration advances the
offset by at least 12 inside a buffer-length guard, so `buf.length + 1`
iterations are never exhausted before the guard stops the walk. -/
def pngChunksLoop (buf : List Nat) : Nat → Nat → List (JStr × JStr) → List (JStr × JStr)
  | 0, _, acc => acc
  | fuel + 1, offset, acc =>
      if offset + 12 ≤ buf.length then
        if offset + 8 + readUInt32BE buf offset + 4 > buf.length then acc
        else
          let ctype := (buf.drop (offset + 4)).take 4
          let data := (buf.drop (offset + 8)).take (readUInt32BE buf offset)
          let acc1 :=
            if ctype = jstr "tEXt" then pngTextChunkInsert data acc
            else if ctype = jstr "iTXt" then pngItxtChunkInsert data acc
            else acc
          if ctype = jstr "IEND" then acc1
          else pngChunksLoop buf fuel (offset + 8 + readUInt32BE buf offset + 4) acc1
      else acc

/-- The eight-byte PNG signature. -/
def pngSignature : List Nat := [137, 80, 78, 71, 13, 10, 26, 10]

/-- `parsePngTextChunks` (lines 67-135): signature check (a mismatch throws
"Not a PNG file"), then the chunk walk from offset 8. -/
def parsePngTextChunks (buf : List Nat) : Except JStr (List (JStr × JStr)) :=
  if buf.take 8 = pngSignature then .ok (pngChunksLoop buf (buf.length + 1) 8 [])
  else .error (jstr "Not a PNG file")

/-- `path.extname` followed by `toLowerCase`: the extension of the last
path segment, empty when the segment has no dot or only a leading dot. -/
def extnameLower (p : JStr) : JStr :=
  let base := (p.reverse.takeWhile (fun c => ¬ (c = 47))).reverse
  jsToLower (match base.reverse.findIdx? (fun c => c = 46) with
    | none => []
    | some rj =>
        if base.length - 1 - rj = 0 then []
        else base.drop (base.length - 1 - rj))

/-- The `readFile` result (`WorkflowPayload` in both processes). -/
inductive WorkflowPayload (α : Type) where
  | ok (sourcePath : JStr) (workflow : α)
  | err (sourcePath : JStr) (error : JStr)
deriving DecidableEq

/-- The `ok` discriminant of a payload. -/
def WorkflowPayload.isOk {α : Type} : WorkflowPayload α → Bool
  | .ok _ _ => true
  | .err _ _ => false

/-- `loadWorkflowFromFile` (lines 145-178), as a function of the path and
the file bytes `readFile` produced.  A parse failure message stands in for
the host's SyntaxError text. -/
def loadWorkflowFromFile (sourcePath : JStr) (buffer : List Nat) :
    WorkflowPayload Json :=
  if extnameLower sourcePath = jstr ".json" then
    match jsJsonParse buffer with
    | none => .err sourcePath (jstr "Unexpected token in JSON")
    | some j =>
        match j with
        | .obj fields =>
            match (fields.find? (fun e => e.1 = jstr "workflow")).map (fun e => e.2) with
            | none => .ok sourcePath (.obj fields)
            | some embedded =>
                match embedded with
                | .null => .ok sourcePath (.obj fields)
                | _ =>
                    match parseWorkflowFromAny embedded with
                    | .ok w => .ok sourcePath w
                    | .error e => .err sourcePath e
        | _ => .ok sourcePath j
  else if extnameLower sourcePath = jstr ".png" then
    match parsePngTextChunks buffer with
    | .error e => .err sourcePath e
    | .ok text =>
        match (match tblGet text (jstr "workflow") with
               | some v => some v
               | none => tblGet text (jstr "Workflow")) with
        | none => .err sourcePath (jstr "PNG metadata missing workflow field")
        | some raw =>
            if raw.isEmpty then .err sourcePath (jstr "PNG metadata missing workflow field")
            else
              match parseWorkflowFromAny
                  (match jsJsonParse raw with
                   | some j => j
                   | none => .str raw) with
              | .ok w => .ok sourcePath w
              | .error e => .err sourcePath e
  else
    .err sourcePath (jstr "Unsupported file type: " ++
      (if (extnameLower sourcePath).isEmpty then jstr "(none)" else extnameLower sourcePath))

/-! ## Tab/View-State Manager (src/renderer/src/main.ts, lines 893-1058)

The workflow document a tab holds is opaque to tab management, so the tab
state is polymorphic in it.  The graph engine's fit-to-content outcome
(`fitToContent`, including its catch-and-reset fallback) is an external
capability, passed in as the view it produces. -/

/-- `TabState` (lines 8-14); `crypto.randomUUID` ids are modelled as
numbers. -/
structure Tab (α : Type) where
  id : Nat
  sourcePath : JStr
  title : JStr
  workflow : α
  view : Option View
deriving DecidableEq

/-- The tab-manager state: the tab list, the active tab id, the status
line and the canvas viewport. -/
structure AppState (α : Type) where
  tabs : List (Tab α)
  activeTabId : Option Nat
  status : JStr
  canvasView : View
deriving DecidableEq

/-- Split on a separator code unit (`String.prototype.split`). -/
def splitOnCode (sep : Nat) : JStr → List JStr
  | [] => [[]]
  | c :: tl =>
      match splitOnCode sep tl with
      | [] => if c = sep then [[], []] else [[c]]
      | h :: rest => if c = sep then [] :: h :: rest else (c :: h) :: rest

/-- `pathToTitle` (lines 893-896). -/
def pathToTitle (sourcePath : JStr) : JStr :=
  let normalized := sourcePath.map (fun c => if c = 92 then 47 else c)
  ((splitOnCode 47 normalized).filter (fun seg => ¬ seg.isEmpty)).getLastD sourcePath

/-- Set the saved view of the tab with the given id (the mutation
`tab.view = {...}` through the reference `find` returned). -/
def updateTabView {α : Type} : List (Tab α) → Nat → View → List (Tab α)
  | [], _, _ => []
  | t :: ts, id, v =>
      if t.id = id then { t with view := some v } :: ts
      else t :: updateTabView ts id v

/-- `saveActiveTabView` (lines 902-906). -/
def saveActiveTabView {α : Type} (st : AppState α) : AppState α :=
  match st.activeTabId with
  | none => st
  | some id => { st with tabs := updateTabView st.tabs id st.canvasView }

/-- `activateTab` (lines 962-988).  `fitView` is the viewport the engine's
fit-to-content produces (used only when the tab has no saved view); DOM
work (`renderTabs`, hint, summary panel) and graph reconfiguration have no
modelled state. -/
def activateTab {α : Type} (st : AppState α) (fitView : View) (id : Nat) : AppState α :=
  if st.activeTabId = some id then st
  else
    let st1 := saveActiveTabView st
    let st2 := { st1 with activeTabId := some id }
    match st2.tabs.find? (fun t => t.id = id) with
    | none =>
        if st2.tabs.isEmpty then { st2 with status := jstr "Ready" } else st2
    | some tab =>
        let st3 := { st2 with status := jstr "Loaded: " ++ tab.sourcePath }
        match tab.view with
        | some v => { st3 with canvasView := v }
        | none =>
            { st3 with canvasView := fitView, tabs := updateTabView st3.tabs id fitView }

/-- `openWorkflowInNewTab` (lines 1022-1048), as a function of the
`readFile` result for the requested path and the fresh id the success
branch would mint. -/
def openWorkflowInNewTab {α : Type} (st : AppState α) (fitView : View) (path : JStr)
    (payload : WorkflowPayload α) (newId : Nat) : AppState α :=
  match st.tabs.find? (fun t => t.sourcePath = path) with
  | some existing => activateTab st fitView existing.id
  | none =>
      let st1 := { st with status := jstr "Loading: " ++ path }
      match payload with
      | .err _ e => { st1 with status := jstr "Error: " ++ e }
      | .ok sp wf =>
          let tab : Tab α := ⟨newId, sp, pathToTitle sp, wf, none⟩
          let st2 := { st1 with tabs := st1.tabs ++ [tab] }
          activateTab st2 fitView newId

/-! ## Text wrapping (src/renderer/src/main.ts, lines 434-479)

`wrapTextByWidth` is parametrised by the rendering context's text measure
(`ctx.measureText(s).width`), an external capability modelled as a function
to rationals.  The `\s` class of the tokenizing regex and `trimEnd` use the
whitespace class `isWsCode`. -/

/-- `text.replace(/\r\n/g, '\n')`. -/
def normalizeCrlf : JStr → JStr
  | [] => []
  | 13 :: 10 :: tl => 10 :: normalizeCrlf tl
  | c :: tl => c :: normalizeCrlf tl

/-- `paragraph.split(/(\s+)/).filter(t => t.length > 0)`: the maximal runs
of whitespace and of non-whitespace, in order. -/
def tokenizeWs : JStr → List JStr
  | [] => []
  | c :: tl =>
      match tokenizeWs tl with
      | [] => [[c]]
      | t :: rest =>
          match t with
          | [] => [[c]]
          | d :: _ =>
              if isWsCode c = isWsCode d then (c :: t) :: rest else [c] :: t :: rest

/-- The character-level fallback loop for a token wider than the line
(lines 463-472): state is (emitted lines, current chunk). -/
def wrapCharStep (measure : JStr → ℚ) (maxWidth : ℚ) (q : List JStr × JStr) (ch : Nat) :
    List JStr × JStr :=
  let attempt := q.2 ++ [ch]
  if maxWidth < measure attempt ∧ ¬ q.2.isEmpty then (q.1 ++ [q.2], [ch])
  else (q.1, attempt)

/-- One token of the wrapping loop (lines 446-474): state is
(emitted lines, current line). -/
def wrapStep (measure : JStr → ℚ) (maxWidth : ℚ) (p : List JStr × JStr) (token : JStr) :
    List JStr × JStr :=
  let next := if p.2.isEmpty then token else p.2 ++ token
  if measure next ≤ maxWidth then (p.1, next)
  else
    let lines1 := if p.2.isEmpty then p.1 else p.1 ++ [jsTrimEnd p.2]
    if measure token ≤ maxWidth then (lines1, token)
    else token.foldl (wrapCharStep measure maxWidth) (lines1, [])

/-- One paragraph (lines 439-476): an empty paragraph emits an empty line;
otherwise the token loop runs and a leftover current line is flushed
trim-ended. -/
def wrapParagraph (measure : JStr → ℚ) (maxWidth : ℚ) (lines : List JStr)
    (paragraph : JStr) : List JStr :=
  if paragraph.isEmpty then lines ++ [[]]
  else
    let r := (tokenizeWs paragraph).foldl (wrapStep measure maxWidth) (lines, [])
    if r.2.isEmpty then r.1 else r.1 ++ [jsTrimEnd r.2]

/-- `wrapTextByWidth` (lines 434-479). -/
def wrapTextByWidth (measure : JStr → ℚ) (text : JStr) (maxWidth : ℚ) : List JStr :=
  (splitOnCode 10 (normalizeCrlf text)).foldl (wrapParagraph measure maxWidth) []

/-- The acceptable shapes of an emitted line: it fits the width, or it is a
single (unbreakable over-wide) character, or it is empty. -/
def LineOk (measure : JStr → ℚ) (maxWidth : ℚ) (l : JStr) : Prop :=
  measure l ≤ maxWidth ∨ l.length = 1 ∨ l = []

/-- The non-whitespace characters of a string, in order. -/
def visibleChars (s : JStr) : JStr := s.filter (fun c => !isWsCode c)

end WorkflowViewer

namespace WorkflowViewer

/-! ## Theorems -/

/-- Helper: the empty-click move listener never touches `activeDrag`,
`dragCandidate`, the viewport or the node store. -/
theorem emptyClickMoveHandler_frame (st : GestureState) (ev : PointerEvt) :
    (emptyClickMoveHandler st ev).activeDrag = st.activeDrag ∧
    (emptyClickMoveHandler st ev).dragCandidate = st.dragCandidate ∧
    (emptyClickMoveHandler st ev).view = st.view ∧
    (emptyClickMoveHandler st ev).nodes = st.nodes := by
  unfold emptyClickMoveHandler
  rcases st.emptyClickCandidate with _ | ec
  · exact ⟨rfl, rfl, rfl, rfl⟩
  · dsimp only
    split
    · exact ⟨rfl, rfl, rfl, rfl⟩
    · split <;> exact ⟨rfl, rfl, rfl, rfl⟩

/-- **C2 (amended)** — on window blur, the space-pan modifier, the drag
candidate and the active drag are all unconditionally cleared, but the armed
empty-click candidate is left exactly as it was. -/
theorem blur_resets_drag_state_but_keeps_empty_click (st : GestureState) :
    (onWindowBlur st).spaceDown = false ∧
    (onWindowBlur st).dragCandidate = none ∧
    (onWindowBlur st).activeDrag = none ∧
    (onWindowBlur st).emptyClickCandidate = st.emptyClickCandidate :=
  ⟨rfl, rfl, rfl, rfl⟩

/-- **C2 counterexample** — with an empty-click candidate armed for pointer 7
at the origin, the window-blur handler does not clear it, refuting the claim
that blur resets all gesture state (including the empty-click candidate). -/
theorem blur_counterexample :
    (onWindowBlur
      { spaceDown := true
        emptyClickCandidate := some ⟨7, 0, 0⟩
        dragCandidate := none
        activeDrag := none
        overlayInteracting := false
        view := ⟨0, 0, 1⟩
        nodes := []
        selected := [] }).emptyClickCandidate ≠ none := by
  decide


/-- Helper: updating a present node sets its looked-up position. -/
theorem getNodePos_setNodePos_self (ns : List GNode) (i : Nat) (p q : ℚ)
    (h : (getNodePos ns i).isSome) :
    getNodePos (setNodePos ns i p q) i = some (p, q) := by
  induction ns with
  | nil => simp [getNodePos] at h
  | cons n ns ih =>
      by_cases hn : n.id = i
      · simp [setNodePos, getNodePos, hn]
      · simp only [getNodePos, hn, if_false, ite_false] at h
        simp [setNodePos, getNodePos, hn, ih h]

/-- Helper: updating node `i` leaves the looked-up position of `j ≠ i`
alone. -/
theorem getNodePos_setNodePos_ne (ns : List GNode) (i j : Nat) (p q : ℚ) (hij : j ≠ i) :
    getNodePos (setNodePos ns i p q) j = getNodePos ns j := by
  have hij2 : ¬ i = j := fun hh => hij hh.symm
  induction ns with
  | nil => rfl
  | cons n ns ih =>
      by_cases hn : n.id = i
      · simp [setNodePos, getNodePos, hn, hij2, hij, ih]
      · by_cases h2 : n.id = j
        · simp [setNodePos, getNodePos, hn, h2, hij]
        · simp [setNodePos, getNodePos, hn, h2, hij, ih]

/-- Helper: a drag fold over captured nodes that never touches `j` leaves
`j`'s position alone. -/
theorem getNodePos_dragFold_ne (l : List CapturedNode) (ns : List GNode)
    (F G : CapturedNode → ℚ) (j : Nat) (h : ∀ c ∈ l, c.id ≠ j) :
    getNodePos (l.foldl (fun acc c => setNodePos acc c.id (F c) (G c)) ns) j =
      getNodePos ns j := by
  induction l generalizing ns with
  | nil => rfl
  | cons c l ih =>
      rw [List.foldl_cons, ih _ (fun x hx => h x (List.mem_cons_of_mem _ hx))]
      exact getNodePos_setNodePos_ne _ _ _ _ _ (Ne.symm (h c (List.mem_cons_self _ _)))

/-- Helper: the drag fold sets every captured (present, duplicate-free)
node's position to the folded value. -/
theorem getNodePos_dragFold (l : List CapturedNode) (ns : List GNode)
    (F G : CapturedNode → ℚ)
    (hnodup : (l.map (fun c => c.id)).Nodup)
    (c : CapturedNode) (hc : c ∈ l) (hpresent : (getNodePos ns c.id).isSome) :
    getNodePos (l.foldl (fun acc x => setNodePos acc x.id (F x) (G x)) ns) c.id =
      some (F c, G c) := by
  induction l generalizing ns with
  | nil => cases hc
  | cons d l ih =>
      rw [List.foldl_cons]
      rcases List.nodup_cons.mp hnodup with ⟨hdnot, hnd⟩
      rcases List.mem_cons.mp hc with rfl | hc2
      · have hne : ∀ x ∈ l, x.id ≠ c.id := by
          intro x hx hxc
          have hmem : x.id ∈ List.map (fun y => y.id) l := List.mem_map_of_mem _ hx
          rw [hxc] at hmem
          exact hdnot hmem
        rw [getNodePos_dragFold_ne l _ F G c.id hne]
        exact getNodePos_setNodePos_self _ _ _ _ hpresent
      · have hpres2 : (getNodePos (setNodePos ns d.id (F d) (G d)) c.id).isSome := by
          by_cases hj : c.id = d.id
          · rw [hj] at hpresent ⊢
            rw [getNodePos_setNodePos_self _ _ _ _ hpresent]
            rfl
          · rw [getNodePos_setNodePos_ne _ _ _ _ _ hj]
            exact hpresent
        exact ih _ hnd hc2 hpres2

/-- **C8 (confirmed)** — while a node drag is active (`activeDrag.mode =
'node'`), every pointer-move of the owning pointer sets each captured node's
position to that node's drag-start position plus the pointer displacement
divided by the current zoom scale, and leaves the viewport (both offset and
scale) untouched. -/
theorem node_drag_move_updates_nodes_keeps_viewport
    (st : GestureState) (ev : PointerEvt) (pid : Nat) (sx sy : ℚ)
    (captured : List CapturedNode)
    (had : st.activeDrag = some (.node pid sx sy captured))
    (hid : ev.pointerId = pid)
    (hnodup : (captured.map (fun c => c.id)).Nodup)
    (hpresent : ∀ c ∈ captured, (getNodePos st.nodes c.id).isSome) :
    (∀ c ∈ captured,
      getNodePos (onPointerMove st ev).nodes c.id =
        some (c.x + (ev.x - sx) / st.view.scale, c.y + (ev.y - sy) / st.view.scale)) ∧
    (onPointerMove st ev).view = st.view := by
  unfold onPointerMove
  rw [had]
  simp only [ActiveDrag.pid, hid, if_pos rfl]
  unfold applyActiveDragMove
  constructor
  · intro c hc
    exact getNodePos_dragFold captured st.nodes _ _ hnodup c hc (hpresent c hc)
  · rfl

/-- **C8 witness** — concrete run: node 1 is at (10, 20), a node drag for
pointer 5 started at (0, 0) with zoom 1 capturing it there, the pointer moves
to (4, 2); the node ends at (14, 22) and the viewport stays (0, 0) at
scale 1. -/
theorem node_drag_move_witness :
    (∀ c ∈ [CapturedNode.mk 1 10 20],
      getNodePos (onPointerMove
        { spaceDown := false, emptyClickCandidate := none, dragCandidate := none,
          activeDrag := some (.node 5 0 0 [⟨1, 10, 20⟩]), overlayInteracting := false,
          view := ⟨0, 0, 1⟩, nodes := [⟨1, 10, 20⟩], selected := [1] }
        { pointerId := 5, button := 0, x := 4, y := 2,
          nodeHit := none, inTitleBar := false, groupHit := false }).nodes c.id =
        some (c.x + ((4 : ℚ) - 0) / (1 : ℚ), c.y + ((2 : ℚ) - 0) / (1 : ℚ))) ∧
    (onPointerMove
        { spaceDown := false, emptyClickCandidate := none, dragCandidate := none,
          activeDrag := some (.node 5 0 0 [⟨1, 10, 20⟩]), overlayInteracting := false,
          view := ⟨0, 0, 1⟩, nodes := [⟨1, 10, 20⟩], selected := [1] }
        { pointerId := 5, button := 0, x := 4, y := 2,
          nodeHit := none, inTitleBar := false, groupHit := false }).view = ⟨0, 0, 1⟩ :=
  node_drag_move_updates_nodes_keeps_viewport _ _ 5 0 0 [⟨1, 10, 20⟩]
    rfl rfl (by decide) (by decide)

/-- **C1 (amended)** — for an armed drag candidate with no active drag, a
pointer-move of the candidate's pointer with squared displacement at or
below the 9 px² threshold never promotes; one with squared displacement
strictly above the threshold (while the overlay is not being interacted
with) promotes: a pan candidate becomes `activeDrag(pan)` capturing the
current viewport offset, and a node candidate with a nonempty selection
becomes `activeDrag(node)` capturing every selected node's current
position. -/
theorem drag_candidate_promotion_threshold
    (st : GestureState) (dc : DragCand) (ev : PointerEvt)
    (hc : st.dragCandidate = some dc)
    (ha : st.activeDrag = none)
    (hid : ev.pointerId = dc.pointerId) :
    ((ev.x - dc.startX) * (ev.x - dc.startX) + (ev.y - dc.startY) * (ev.y - dc.startY) ≤
        DRAG_THRESHOLD_SQ →
      (onPointerMove st ev).activeDrag = none) ∧
    (DRAG_THRESHOLD_SQ <
        (ev.x - dc.startX) * (ev.x - dc.startX) + (ev.y - dc.startY) * (ev.y - dc.startY) →
      st.overlayInteracting = false →
      ((dc.mode = .pan →
          (onPointerMove st ev).activeDrag =
            some (.pan ev.pointerId dc.startX dc.startY st.view.offsetX st.view.offsetY)) ∧
       (dc.mode = .node → capturedSelection st ≠ [] →
          (onPointerMove st ev).activeDrag =
            some (.node ev.pointerId dc.startX dc.startY (capturedSelection st))))) := by
  unfold onPointerMove
  rw [ha]
  unfold promotionHandler
  rw [hc]
  simp only [hid, ne_eq, not_true_eq_false, if_false, ite_false, ha, Option.isSome_none,
    Bool.false_eq_true]
  constructor
  · intro hle
    rw [if_pos hle]
    exact (emptyClickMoveHandler_frame st ev).1.trans ha
  · intro hgt hov
    rw [if_neg (not_le.mpr hgt), hov]
    simp only [Bool.false_eq_true, if_false, ite_false]
    constructor
    · intro hmode
      rw [hmode]
      rfl
    · intro hmode hsel
      rw [hmode]
      rcases hcap : capturedSelection st with _ | ⟨a, l⟩
      · exact absurd hcap hsel
      · simp only [beginNodeDrag, hcap, List.isEmpty_cons, Bool.false_eq_true, if_false,
          ite_false]

/-- **C1 counterexample** — a pan candidate armed at (0, 0) for pointer 3,
no active drag, and a pointer-move to (3, 0): the squared displacement is
exactly 9 px² (at the threshold), yet no promotion happens — `activeDrag`
stays `none`, refuting "at or above 9 px² promotes". -/
theorem drag_candidate_at_threshold_not_promoted :
    (onPointerMove
      { spaceDown := false, emptyClickCandidate := none,
        dragCandidate := some ⟨.pan, 3, 0, 0⟩, activeDrag := none,
        overlayInteracting := false, view := ⟨0, 0, 1⟩, nodes := [], selected := [] }
      { pointerId := 3, button := 0, x := 3, y := 0,
        nodeHit := none, inTitleBar := false, groupHit := false }).activeDrag = none := by
  norm_num [onPointerMove, promotionHandler, emptyClickMoveHandler, DRAG_THRESHOLD_SQ]

/-- **C1 witness** — the promotion theorem applied to a concrete pan
candidate: displacement (4, 0) gives squared displacement 16 > 9 and the
candidate is promoted to an active pan capturing viewport offset (7, 8). -/
theorem drag_candidate_promotion_witness :
    (onPointerMove
      { spaceDown := false, emptyClickCandidate := none,
        dragCandidate := some ⟨.pan, 3, 0, 0⟩, activeDrag := none,
        overlayInteracting := false, view := ⟨7, 8, 1⟩, nodes := [], selected := [] }
      { pointerId := 3, button := 0, x := 4, y := 0,
        nodeHit := none, inTitleBar := false, groupHit := false }).activeDrag =
      some (.pan 3 0 0 7 8) := by
  have h := (drag_candidate_promotion_threshold
    { spaceDown := false, emptyClickCandidate := none,
      dragCandidate := some ⟨.pan, 3, 0, 0⟩, activeDrag := none,
      overlayInteracting := false, view := ⟨7, 8, 1⟩, nodes := [], selected := [] }
    ⟨.pan, 3, 0, 0⟩
    { pointerId := 3, button := 0, x := 4, y := 0,
      nodeHit := none, inTitleBar := false, groupHit := false }
    rfl rfl rfl).2
  exact (h (by norm_num [DRAG_THRESHOLD_SQ]) rfl).1 rfl

/-! ### Character-level facts for the colour registry -/

/-- Upper-casing is idempotent on code units. -/
theorem jsToUpperCode_idem (c : Nat) : jsToUpperCode (jsToUpperCode c) = jsToUpperCode c := by
  by_cases h : 97 ≤ c ∧ c ≤ 122
  · have h2 : ¬ (97 ≤ c - 32 ∧ c - 32 ≤ 122) := by omega
    simp only [jsToUpperCode, if_pos h, if_neg h2]
  · simp only [jsToUpperCode, if_neg h]

/-- Lower-casing after upper-casing is lower-casing. -/
theorem jsToLowerCode_upperCode (c : Nat) :
    jsToLowerCode (jsToUpperCode c) = jsToLowerCode c := by
  unfold jsToUpperCode jsToLowerCode
  by_cases h : 97 ≤ c ∧ c ≤ 122
  · have h2 : 65 ≤ c - 32 ∧ c - 32 ≤ 90 := by omega
    have h3 : ¬ (65 ≤ c ∧ c ≤ 90) := by omega
    simp only [if_pos h, if_pos h2, if_neg h3]
    omega
  · simp only [if_neg h]

/-- Upper-casing after lower-casing is upper-casing. -/
theorem jsToUpperCode_lowerCode (c : Nat) :
    jsToUpperCode (jsToLowerCode c) = jsToUpperCode c := by
  unfold jsToUpperCode jsToLowerCode
  by_cases h : 65 ≤ c ∧ c ≤ 90
  · have h2 : 97 ≤ c + 32 ∧ c + 32 ≤ 122 := by omega
    have h3 : ¬ (97 ≤ c ∧ c ≤ 122) := by omega
    simp only [if_pos h, if_pos h2, if_neg h3]
    omega
  · simp only [if_neg h]

/-- Lower-casing is idempotent on code units. -/
theorem jsToLowerCode_idem (c : Nat) : jsToLowerCode (jsToLowerCode c) = jsToLowerCode c := by
  by_cases h : 65 ≤ c ∧ c ≤ 90
  · have h2 : ¬ (65 ≤ c + 32 ∧ c + 32 ≤ 90) := by omega
    simp only [jsToLowerCode, if_pos h, if_neg h2]
  · simp only [jsToLowerCode, if_neg h]

/-- The upper-case image of a code unit is determined by its lower-case
image. -/
theorem jsToUpperCode_of_lowerCode_eq (c₁ c₂ : Nat)
    (h : jsToLowerCode c₁ = jsToLowerCode c₂) :
    jsToUpperCode c₁ = jsToUpperCode c₂ := by
  unfold jsToLowerCode at h
  unfold jsToUpperCode
  by_cases h1 : 65 ≤ c₁ ∧ c₁ ≤ 90
  · rw [if_pos h1] at h
    by_cases h2 : 65 ≤ c₂ ∧ c₂ ≤ 90
    · rw [if_pos h2] at h
      have hc : c₁ = c₂ := by omega
      rw [hc]
    · rw [if_neg h2] at h
      have hc1 : ¬ (97 ≤ c₁ ∧ c₁ ≤ 122) := by omega
      have hc2 : 97 ≤ c₂ ∧ c₂ ≤ 122 := by omega
      rw [if_neg hc1, if_pos hc2]
      omega
  · rw [if_neg h1] at h
    by_cases h2 : 65 ≤ c₂ ∧ c₂ ≤ 90
    · rw [if_pos h2] at h
      have hc1 : 97 ≤ c₁ ∧ c₁ ≤ 122 := by omega
      have hc2 : ¬ (97 ≤ c₂ ∧ c₂ ≤ 122) := by omega
      rw [if_pos hc1, if_neg hc2]
      omega
    · rw [if_neg h2] at h
      rw [h]

/-- Upper-casing preserves word-characterhood in both directions. -/
theorem isWordCode_upperCode (c : Nat) : isWordCode (jsToUpperCode c) = isWordCode c := by
  unfold jsToUpperCode isWordCode
  by_cases h : 97 ≤ c ∧ c ≤ 122
  · rw [if_pos h, Bool.eq_iff_iff]
    simp only [Bool.or_eq_true, Bool.and_eq_true, decide_eq_true_eq]
    omega
  · rw [if_neg h]

/-- A word character is never whitespace. -/
theorem isWordCode_not_ws (c : Nat) (h : isWordCode c = true) : isWsCode c = false := by
  simp only [isWordCode, Bool.or_eq_true, Bool.and_eq_true, decide_eq_true_eq] at h
  simp only [isWsCode, Bool.or_eq_false_iff, decide_eq_false_iff_not]
  omega

/-- Lower-casing never produces an upper-case letter. -/
theorem jsToLowerCode_not_upper (c : Nat) : ¬ (65 ≤ jsToLowerCode c ∧ jsToLowerCode c ≤ 90) := by
  unfold jsToLowerCode
  split <;> omega

/-! ### String-level facts for the colour registry -/

/-- Composition of per-character maps. -/
theorem map_map_eq (f g h : Nat → Nat) (hc : ∀ c, f (g c) = h c) (s : List Nat) :
    (s.map g).map f = s.map h := by
  induction s with
  | nil => rfl
  | cons a tl ih => simp [hc, ih]

/-- Upper-casing a string is idempotent. -/
theorem jsToUpper_idem (s : JStr) : jsToUpper (jsToUpper s) = jsToUpper s :=
  map_map_eq _ _ _ jsToUpperCode_idem s

/-- Lower-casing after upper-casing a string is lower-casing it. -/
theorem jsToLower_jsToUpper (s : JStr) : jsToLower (jsToUpper s) = jsToLower s :=
  map_map_eq _ _ _ jsToLowerCode_upperCode s

/-- Upper-casing after lower-casing a string is upper-casing it. -/
theorem jsToUpper_jsToLower (s : JStr) : jsToUpper (jsToLower s) = jsToUpper s :=
  map_map_eq _ _ _ jsToUpperCode_lowerCode s

/-- Lower-casing a string is idempotent. -/
theorem jsToLower_idem (s : JStr) : jsToLower (jsToLower s) = jsToLower s :=
  map_map_eq _ _ _ jsToLowerCode_idem s

/-- The upper-case image of a string is determined by its lower-case image. -/
theorem jsToUpper_of_jsToLower_eq (s₁ s₂ : JStr) (h : jsToLower s₁ = jsToLower s₂) :
    jsToUpper s₁ = jsToUpper s₂ := by
  induction s₁ generalizing s₂ with
  | nil =>
      cases s₂ with
      | nil => rfl
      | cons b tl => simp [jsToLower] at h
  | cons a tl ih =>
      cases s₂ with
      | nil => simp [jsToLower] at h
      | cons b tl₂ =>
          simp only [jsToLower, List.map_cons, List.cons.injEq] at h
          simp only [jsToUpper, List.map_cons, List.cons.injEq]
          exact ⟨jsToUpperCode_of_lowerCode_eq a b h.1, ih tl₂ h.2⟩

/-- Unfolding equation for `dropWhileEnd` on a cons cell. -/
theorem dropWhileEnd_cons (p : Nat → Bool) (c : Nat) (tl : List Nat) :
    dropWhileEnd p (c :: tl) =
      if (dropWhileEnd p tl).isEmpty && p c then [] else c :: dropWhileEnd p tl := rfl

/-- `dropWhileEnd` is idempotent. -/
theorem dropWhileEnd_idem (p : Nat → Bool) (l : List Nat) :
    dropWhileEnd p (dropWhileEnd p l) = dropWhileEnd p l := by
  induction l with
  | nil => rfl
  | cons c tl ih =>
      rw [dropWhileEnd_cons]
      by_cases h : ((dropWhileEnd p tl).isEmpty && p c) = true
      · rw [if_pos h]
        rfl
      · rw [if_neg h, dropWhileEnd_cons, ih, if_neg h]

/-- `dropWhileEnd` keeps a list none of whose characters satisfy `p`. -/
theorem dropWhileEnd_of_all_not (p : Nat → Bool) (l : List Nat)
    (h : ∀ c ∈ l, p c = false) : dropWhileEnd p l = l := by
  induction l with
  | nil => rfl
  | cons c tl ih =>
      rw [dropWhileEnd_cons, ih (fun x hx => h x (List.mem_cons_of_mem _ hx))]
      have hc : p c = false := h c (List.mem_cons_self _ _)
      simp [hc]

/-- `dropWhile` keeps a list none of whose characters satisfy `p`. -/
theorem dropWhile_of_all_not (p : Nat → Bool) (l : List Nat)
    (h : ∀ c ∈ l, p c = false) : l.dropWhile p = l := by
  cases l with
  | nil => rfl
  | cons c tl => simp [List.dropWhile_cons, h c (List.mem_cons_self _ _)]

/-- `trim` keeps a whitespace-free string. -/
theorem jsTrim_of_no_ws (s : JStr) (h : ∀ c ∈ s, isWsCode c = false) : jsTrim s = s := by
  unfold jsTrim
  rw [dropWhile_of_all_not _ _ h, dropWhileEnd_of_all_not _ _ h]

/-- The head of a `dropWhile` result never satisfies `p`. -/
theorem dropWhile_head_not (p : Nat → Bool) (l : List Nat) :
    l.dropWhile p = [] ∨ ∃ c tl, l.dropWhile p = c :: tl ∧ p c = false := by
  induction l with
  | nil => exact Or.inl rfl
  | cons a tl ih =>
      by_cases h : p a = true
      · simpa [List.dropWhile_cons, h] using ih
      · right
        exact ⟨a, tl, by simp [List.dropWhile_cons, h], by simp at h; exact h⟩

/-- `trim` is idempotent. -/
theorem jsTrim_idem (s : JStr) : jsTrim (jsTrim s) = jsTrim s := by
  have h1 : (jsTrim s).dropWhile isWsCode = jsTrim s := by
    unfold jsTrim
    rcases dropWhile_head_not isWsCode s with h | ⟨c, tl, heq, hc⟩
    · rw [h]
      rfl
    · rw [heq, dropWhileEnd_cons]
      by_cases hb : ((dropWhileEnd isWsCode tl).isEmpty && isWsCode c) = true
      · rw [if_pos hb]
        rfl
      · rw [if_neg hb]
        simp [List.dropWhile_cons, hc]
  have h2 : dropWhileEnd isWsCode (jsTrim s) = jsTrim s := by
    unfold jsTrim
    exact dropWhileEnd_idem _ _
  show dropWhileEnd isWsCode ((jsTrim s).dropWhile isWsCode) = jsTrim s
  rw [h1, h2]

/-- Helper: an all-word-character string canonicalizes to its upper-casing,
and an empty or non-matching trimmed string to itself. -/
theorem canonicalizeType_of_word (t : JStr) (hne : t ≠ [])
    (hw : ∀ c ∈ t, isWordCode c = true) : canonicalizeType t = jsToUpper t := by
  have htr : jsTrim t = t := jsTrim_of_no_ws t (fun c hc => isWordCode_not_ws c (hw c hc))
  have hre : matchesWordRegex t = true := by
    simp only [matchesWordRegex, Bool.and_eq_true, Bool.not_eq_true', List.all_eq_true]
    constructor
    · cases t with
      | nil => exact absurd rfl hne
      | cons a tl => rfl
    · intro c hc
      exact hw c hc
  have hie : t.isEmpty = false := by
    cases t with
    | nil => exact absurd rfl hne
    | cons a tl => rfl
  unfold canonicalizeType
  rw [htr, hie, hre]
  simp

/-- `canonicalizeType` is idempotent. -/
theorem canonicalizeType_idem (t : JStr) :
    canonicalizeType (canonicalizeType t) = canonicalizeType t := by
  by_cases h0 : (jsTrim t).isEmpty = true
  · have hnil : jsTrim t = [] := by
      cases he : jsTrim t with
      | nil => rfl
      | cons a tl => rw [he] at h0; simp [List.isEmpty] at h0
    have hct : canonicalizeType t = [] := by
      unfold canonicalizeType
      rw [hnil]
      rfl
    rw [hct]
    rfl
  · by_cases h1 : matchesWordRegex (jsTrim t) = true
    · have hct : canonicalizeType t = jsToUpper (jsTrim t) := by
        unfold canonicalizeType
        rw [if_neg h0, if_pos h1]
      rw [hct]
      have hne : jsTrim t ≠ [] := by
        intro hh
        rw [hh] at h0
        exact h0 rfl
      have hword : ∀ c ∈ jsTrim t, isWordCode c = true := by
        have := h1
        simp only [matchesWordRegex, Bool.and_eq_true, List.all_eq_true] at this
        exact fun c hc => this.2 c hc
      have hne2 : jsToUpper (jsTrim t) ≠ [] := by
        cases he : jsTrim t with
        | nil => exact absurd he hne
        | cons a tl => simp [jsToUpper, he]
      have hword2 : ∀ c ∈ jsToUpper (jsTrim t), isWordCode c = true := by
        intro c hc
        rcases List.mem_map.mp hc with ⟨d, hd, rfl⟩
        rw [isWordCode_upperCode]
        exact hword d hd
      rw [canonicalizeType_of_word _ hne2 hword2]
      exact jsToUpper_idem _
    · have hct : canonicalizeType t = jsTrim t := by
        unfold canonicalizeType
        rw [if_neg h0, if_neg h1]
      rw [hct]
      unfold canonicalizeType
      rw [jsTrim_idem, if_neg h0, if_neg h1]

/-- The element returned by `find?` satisfies the predicate. -/
theorem find?_pred_true {α : Type} (p : α → Bool) (l : List α) (a : α)
    (h : l.find? p = some a) : p a = true := by
  induction l with
  | nil => cases h
  | cons x xs ih =>
      by_cases hx : p x = true
      · rw [List.find?_cons_of_pos _ hx] at h
        cases h
        exact hx
      · rw [List.find?_cons_of_neg _ (by simpa using hx)] at h
        exact ih h

/-- A successful palette lookup exhibits a palette entry. -/
theorem baseTypeColor_mem (t c : JStr) (h : baseTypeColor t = some c) :
    (t, c) ∈ BASE_TYPE_COLOR_LIST := by
  unfold baseTypeColor at h
  rcases hf : BASE_TYPE_COLOR_LIST.find? (fun e => e.1 = t) with _ | e
  · rw [hf] at h
    cases h
  · rw [hf] at h
    simp only [Option.map_some'] at h
    have h1 : e.1 = t := by
      have := find?_pred_true _ _ _ hf
      simpa using this
    have h2 : e.2 = c := Option.some.inj h
    have hm := List.mem_of_find?_eq_some hf
    rw [← h1, ← h2]
    simpa using hm

/-- A palette hit on the raw name is also a hit on the canonical name. -/
theorem baseTypeColor_canonical_of_raw (t c : JStr) (h : baseTypeColor t = some c) :
    baseTypeColor (canonicalizeType t) = some c := by
  have hall : ∀ p ∈ BASE_TYPE_COLOR_LIST,
      baseTypeColor (canonicalizeType p.1) = some p.2 := by decide
  exact hall (t, c) (baseTypeColor_mem t c h)

/-- A nonempty all-word-character upper image forces the canonicalization to
be exactly that image. -/
theorem canonicalizeType_of_upper_eq (t k : JStr) (hk : jsToUpper t = k)
    (hne : k ≠ []) (hall : ∀ c ∈ k, isWordCode c = true) :
    canonicalizeType t = k := by
  subst hk
  have hword : ∀ c ∈ t, isWordCode c = true := by
    intro c hc
    have hmem : jsToUpperCode c ∈ jsToUpper t := List.mem_map_of_mem _ hc
    have := hall _ hmem
    rwa [isWordCode_upperCode] at this
  have htne : t ≠ [] := by
    intro hh
    rw [hh] at hne
    exact hne rfl
  rw [canonicalizeType_of_word t htne hword]

/-- A palette hit on the upper-cased raw name is also a hit on the canonical
name. -/
theorem baseTypeColor_canonical_of_upper (t c : JStr)
    (h : baseTypeColor (jsToUpper t) = some c) :
    baseTypeColor (canonicalizeType t) = some c := by
  have hm := baseTypeColor_mem _ c h
  simp only [BASE_TYPE_COLOR_LIST, List.mem_cons, List.not_mem_nil, or_false,
    Prod.mk.injEq] at hm
  rcases hm with ⟨hk, rfl⟩ | ⟨hk, rfl⟩ | ⟨hk, rfl⟩ | ⟨hk, rfl⟩ | ⟨hk, rfl⟩ | ⟨hk, rfl⟩ |
    ⟨hk, rfl⟩ | ⟨hk, rfl⟩ | ⟨hk, rfl⟩ | ⟨hk, rfl⟩ | ⟨hk, rfl⟩ | ⟨hk, rfl⟩ | ⟨hk, rfl⟩ <;>
    rw [canonicalizeType_of_upper_eq t _ hk (by decide) (by decide)] <;> decide

/-- Lower-casing can never hit the (upper-case-headed) palette. -/
theorem baseTypeColor_lower_none (t : JStr) : baseTypeColor (jsToLower t) = none := by
  rcases h : baseTypeColor (jsToLower t) with _ | c
  · rfl
  exfalso
  have hm := baseTypeColor_mem _ c h
  simp only [BASE_TYPE_COLOR_LIST, List.mem_cons, List.not_mem_nil, or_false,
    Prod.mk.injEq] at hm
  have hhead : ∀ (n : Nat) (rest : List Nat), 65 ≤ n → n ≤ 90 →
      jsToLower t ≠ n :: rest := by
    intro n rest h65 h90 heq
    cases t with
    | nil => simp [jsToLower] at heq
    | cons a tl =>
        rw [jsToLower, List.map_cons] at heq
        have h1 : jsToLowerCode a = n := (List.cons.injEq _ _ _ _ ▸ heq).1
        exact jsToLowerCode_not_upper a (by omega)
  rcases hm with ⟨hk, _⟩ | ⟨hk, _⟩ | ⟨hk, _⟩ | ⟨hk, _⟩ | ⟨hk, _⟩ | ⟨hk, _⟩ |
    ⟨hk, _⟩ | ⟨hk, _⟩ | ⟨hk, _⟩ | ⟨hk, _⟩ | ⟨hk, _⟩ | ⟨hk, _⟩ | ⟨hk, _⟩
  · exact hhead 77 (jstr "ODEL") (by omega) (by omega) (by rw [hk]; decide)
  · exact hhead 67 (jstr "LIP") (by omega) (by omega) (by rw [hk]; decide)
  · exact hhead 86 (jstr "AE") (by omega) (by omega) (by rw [hk]; decide)
  · exact hhead 73 (jstr "MAGE") (by omega) (by omega) (by rw [hk]; decide)
  · exact hhead 76 (jstr "ATENT") (by omega) (by omega) (by rw [hk]; decide)
  · exact hhead 67 (jstr "ONDITIONING") (by omega) (by omega) (by rw [hk]; decide)
  · exact hhead 77 (jstr "ASK") (by omega) (by omega) (by rw [hk]; decide)
  · exact hhead 67 (jstr "ONTROL_NET") (by omega) (by omega) (by rw [hk]; decide)
  · exact hhead 73 (jstr "NT") (by omega) (by omega) (by rw [hk]; decide)
  · exact hhead 70 (jstr "LOAT") (by omega) (by omega) (by rw [hk]; decide)
  · exact hhead 83 (jstr "TRING") (by omega) (by omega) (by rw [hk]; decide)
  · exact hhead 66 (jstr "OOLEAN") (by omega) (by omega) (by rw [hk]; decide)
  · exact hhead 65 (jstr "NY") (by omega) (by omega) (by rw [hk]; decide)

/-- The palette fallback chain gives the same result for a name and its
canonicalization. -/
theorem baseHitChain_canonical (t : JStr) :
    baseHitChain t (canonicalizeType t) =
      baseHitChain (canonicalizeType t) (canonicalizeType t) := by
  unfold baseHitChain
  rcases h1 : baseTypeColor (canonicalizeType t) with _ | c
  · rcases h2 : baseTypeColor (jsToUpper (canonicalizeType t)) with _ | c
    · rw [baseTypeColor_lower_none (canonicalizeType t)]
      rcases h4 : baseTypeColor t with _ | c
      · rcases h5 : baseTypeColor (jsToUpper t) with _ | c
        · rw [baseTypeColor_lower_none t]
        · have := baseTypeColor_canonical_of_upper t c h5
          rw [this] at h1
          cases h1
      · have := baseTypeColor_canonical_of_raw t c h4
        rw [this] at h1
        cases h1
    · rfl
  · rfl

/-- **C3 (confirmed)** — the type-to-colour assignment is deterministic
(`stableTypeColor` is a pure function, so calling it twice on the same name
gives the same hex string) and canonicalization-stable:
`stableTypeColor T = stableTypeColor (canonicalizeType T)` for every type
name `T`. -/
theorem stableTypeColor_deterministic_and_canonical_stable (t : JStr) :
    stableTypeColor t = stableTypeColor t ∧
    stableTypeColor t = stableTypeColor (canonicalizeType t) := by
  refine ⟨rfl, ?_⟩
  unfold stableTypeColor
  rw [canonicalizeType_idem, baseHitChain_canonical]

/-! ### Colour-table facts for the assign-once invariant -/

/-- Writing a key makes it readable. -/
theorem tblGet_tblSet_self (tbl : ColorTable) (k v : JStr) :
    tblGet (tblSet tbl k v) k = some v := by
  induction tbl with
  | nil => simp [tblSet, tblGet]
  | cons e tl ih =>
      by_cases h : e.1 = k
      · simp [tblSet, tblGet, h]
      · simp only [tblSet, if_neg h]
        simp only [tblGet, List.find?_cons] at ih ⊢
        simp [h, ih]

/-- Writing a key leaves other keys alone. -/
theorem tblGet_tblSet_ne (tbl : ColorTable) (k k' v : JStr) (h : k' ≠ k) :
    tblGet (tblSet tbl k v) k' = tblGet tbl k' := by
  induction tbl with
  | nil =>
      unfold tblSet tblGet
      rw [List.find?_cons_of_neg _ (by simpa using fun hh => h hh.symm)]
  | cons e tl ih =>
      by_cases he : e.1 = k
      · have hp1 : ¬ ((k, v).1 = k') := fun hh => h hh.symm
        have hp2 : ¬ (e.1 = k') := by rw [he]; exact fun hh => h hh.symm
        simp only [tblSet, if_pos he]
        unfold tblGet
        rw [List.find?_cons_of_neg _ (by simpa using hp1),
          List.find?_cons_of_neg _ (by simpa using hp2)]
      · by_cases h2 : e.1 = k'
        · simp only [tblSet, if_neg he]
          unfold tblGet
          rw [List.find?_cons_of_pos _ (by simpa using h2),
            List.find?_cons_of_pos _ (by simpa using h2)]
        · simp only [tblSet, if_neg he]
          unfold tblGet
          rw [List.find?_cons_of_neg _ (by simpa using h2),
            List.find?_cons_of_neg _ (by simpa using h2)]
          exact ih

/-- Reading after a batch write: keys in the batch read the written colour,
others are untouched. -/
theorem tblGet_writeAll (K : List JStr) (tbl : ColorTable) (c j : JStr) :
    tblGet (K.foldl (fun acc k => tblSet acc k c) tbl) j =
      if j ∈ K then some c else tblGet tbl j := by
  induction K generalizing tbl with
  | nil => simp
  | cons k K ih =>
      rw [List.foldl_cons, ih]
      by_cases hj : j ∈ K
      · simp [hj, List.mem_cons]
      · by_cases hk : j = k
        · simp [hj, hk, List.mem_cons, tblGet_tblSet_self]
        · simp [hj, hk, List.mem_cons, tblGet_tblSet_ne tbl k j c hk]

/-- Membership in the insertion-order dedup fold. -/
theorem mem_dedupFold (l : List JStr) :
    ∀ (acc : List JStr) (x : JStr),
      x ∈ l.foldl (fun acc k => if acc.any (fun y => y = k) then acc else acc ++ [k]) acc ↔
        x ∈ acc ∨ x ∈ l := by
  induction l with
  | nil => simp
  | cons k l ih =>
      intro acc x
      rw [List.foldl_cons]
      by_cases h : acc.any (fun y => y = k) = true
      · rw [if_pos h, ih]
        simp only [List.any_eq_true, decide_eq_true_eq] at h
        rcases h with ⟨y, hy, rfl⟩
        constructor
        · rintro (hx | hx)
          · exact Or.inl hx
          · exact Or.inr (List.mem_cons_of_mem _ hx)
        · rintro (hx | hx)
          · exact Or.inl hx
          · rcases List.mem_cons.mp hx with rfl | hx
            · exact Or.inl hy
            · exact Or.inr hx
      · rw [if_neg h, ih]
        constructor
        · rintro (hx | hx)
          · rcases List.mem_append.mp hx with hx | hx
            · exact Or.inl hx
            · rcases List.mem_singleton.mp hx with rfl
              exact Or.inr (List.mem_cons_self _ _)
          · exact Or.inr (List.mem_cons_of_mem _ hx)
        · rintro (hx | hx)
          · exact Or.inl (List.mem_append.mpr (Or.inl hx))
          · rcases List.mem_cons.mp hx with rfl | hx
            · exact Or.inl (List.mem_append.mpr (Or.inr (List.mem_singleton.mpr rfl)))
            · exact Or.inr hx

/-- Membership in the `ensureTypeColors` key set. -/
theorem mem_ensureKeys_iff (t k : JStr) :
    k ∈ ensureKeys t ↔
      (k ∈ [t, canonicalizeType t, jsToUpper t, jsToLower t] ∧ k.isEmpty = false) := by
  unfold ensureKeys
  rw [mem_dedupFold]
  simp only [List.not_mem_nil, false_or, List.mem_filter, Bool.not_eq_true']

/-- Keys of a nonempty name include its upper-casing. -/
theorem jsToUpper_mem_ensureKeys (t : JStr) (h : t ≠ []) :
    jsToUpper t ∈ ensureKeys t := by
  rw [mem_ensureKeys_iff]
  refine ⟨by simp, ?_⟩
  cases t with
  | nil => exact absurd rfl h
  | cons a tl => rfl

/-- For a trimmed name, the canonicalization is the name itself or its
upper-casing. -/
theorem canonicalizeType_cases_of_trimmed (t : JStr) (htrim : jsTrim t = t) :
    canonicalizeType t = t ∨ canonicalizeType t = jsToUpper t := by
  unfold canonicalizeType
  rw [htrim]
  by_cases h0 : t.isEmpty = true
  · rw [if_pos h0]
    exact Or.inl rfl
  · rw [if_neg h0]
    by_cases h1 : matchesWordRegex t = true
    · rw [if_pos h1]
      exact Or.inr rfl
    · rw [if_neg h1]
      exact Or.inl rfl

/-- Every key variant of a trimmed name lower-cases to the name's
lower-casing. -/
theorem jsToLower_of_mem_ensureKeys (t k : JStr) (htrim : jsTrim t = t)
    (hk : k ∈ ensureKeys t) : jsToLower k = jsToLower t := by
  rcases (mem_ensureKeys_iff t k).mp hk with ⟨hmem, _⟩
  simp only [List.mem_cons, List.not_mem_nil, or_false] at hmem
  rcases hmem with rfl | rfl | rfl | rfl
  · rfl
  · rcases canonicalizeType_cases_of_trimmed t htrim with hc | hc <;> rw [hc]
    exact jsToLower_jsToUpper t
  · exact jsToLower_jsToUpper t
  · exact jsToLower_idem t

/-- Every key variant of a trimmed name upper-cases to the name's
upper-casing. -/
theorem jsToUpper_of_mem_ensureKeys (t k : JStr) (htrim : jsTrim t = t)
    (hk : k ∈ ensureKeys t) : jsToUpper k = jsToUpper t := by
  rcases (mem_ensureKeys_iff t k).mp hk with ⟨hmem, _⟩
  simp only [List.mem_cons, List.not_mem_nil, or_false] at hmem
  rcases hmem with rfl | rfl | rfl | rfl
  · rfl
  · rcases canonicalizeType_cases_of_trimmed t htrim with hc | hc <;> rw [hc]
    exact jsToUpper_idem t
  · exact jsToUpper_idem t
  · exact jsToUpper_jsToLower t

/-- A key variant forces the name to be nonempty. -/
theorem ne_nil_of_mem_ensureKeys (t k : JStr) (hk : k ∈ ensureKeys t) : t ≠ [] := by
  intro h
  rw [h] at hk
  simp [ensureKeys, canonicalizeType, jsTrim, jsToUpper, jsToLower, dropWhileEnd] at hk

/-- The table invariant maintained by trimmed-name registrations: keys of the
same case-insensitive class agree on their colour, and every assigned key's
upper-casing is assigned the same colour. -/
def TableConsistent (tbl : ColorTable) : Prop :=
  (∀ k₁ k₂ c₁ c₂, tblGet tbl k₁ = some c₁ → tblGet tbl k₂ = some c₂ →
      jsToLower k₁ = jsToLower k₂ → c₁ = c₂) ∧
  (∀ k c, tblGet tbl k = some c → tblGet tbl (jsToUpper k) = some c)

/-- A successful `findSome?` exhibits a member. -/
theorem findSome?_some_exists {α β : Type} (f : α → Option β) (l : List α) (b : β)
    (h : l.findSome? f = some b) : ∃ a ∈ l, f a = some b := by
  induction l with
  | nil => cases h
  | cons a l ih =>
      rcases ha : f a with _ | b'
      · rw [List.findSome?_cons, ha] at h
        rcases ih h with ⟨x, hx, hfx⟩
        exact ⟨x, List.mem_cons_of_mem _ hx, hfx⟩
      · rw [List.findSome?_cons, ha] at h
        cases h
        exact ⟨a, List.mem_cons_self _ _, ha⟩

/-- A failed `findSome?` fails on every member. -/
theorem findSome?_none_all {α β : Type} (f : α → Option β) (l : List α)
    (h : l.findSome? f = none) : ∀ a ∈ l, f a = none := by
  induction l with
  | nil => intro a ha; cases ha
  | cons a l ih =>
      rcases ha : f a with _ | b'
      · rw [List.findSome?_cons, ha] at h
        intro x hx
        rcases List.mem_cons.mp hx with rfl | hx
        · exact ha
        · exact ih h x hx
      · rw [List.findSome?_cons, ha] at h
        cases h

/-- The table read of `ensureTypeColors` as a conditional. -/
theorem tblGet_ensureTypeColors (tbl : ColorTable) (t k : JStr) :
    tblGet (ensureTypeColors tbl t) k =
      if k ∈ ensureKeys t then some (ensureColor tbl t) else tblGet tbl k := by
  unfold ensureTypeColors
  exact tblGet_writeAll _ _ _ _

/-- A trimmed-name registration never changes an already-assigned entry of a
consistent table. -/
theorem ensureTypeColors_keeps (tbl : ColorTable) (t : JStr)
    (htrim : jsTrim t = t) (hinv : TableConsistent tbl)
    (k c : JStr) (hk : tblGet tbl k = some c) :
    tblGet (ensureTypeColors tbl t) k = some c := by
  rw [tblGet_ensureTypeColors]
  by_cases hmem : k ∈ ensureKeys t
  · rw [if_pos hmem]
    unfold ensureColor
    rcases hf : (ensureKeys t).findSome? (fun x => tblGet tbl x) with _ | c0
    · have := findSome?_none_all _ _ hf k hmem
      rw [this] at hk
      cases hk
    · rcases findSome?_some_exists _ _ _ hf with ⟨k0, hk0mem, hk0⟩
      have hlow : jsToLower k = jsToLower k0 := by
        rw [jsToLower_of_mem_ensureKeys t k htrim hmem,
          jsToLower_of_mem_ensureKeys t k0 htrim hk0mem]
      have := hinv.1 k k0 c c0 hk hk0 hlow
      rw [this]
  · rw [if_neg hmem]
    exact hk

/-- A trimmed-name registration preserves the table invariant. -/
theorem ensureTypeColors_consistent (tbl : ColorTable) (t : JStr)
    (htrim : jsTrim t = t) (hinv : TableConsistent tbl) :
    TableConsistent (ensureTypeColors tbl t) := by
  have hclassK : ∀ k ∈ ensureKeys t, jsToLower k = jsToLower t := fun k hk =>
    jsToLower_of_mem_ensureKeys t k htrim hk
  have hfresh_no_class : (ensureKeys t).findSome? (fun x => tblGet tbl x) = none →
      t ≠ [] → ∀ k c, tblGet tbl k = some c → jsToLower k = jsToLower t → False := by
    intro hf htne k c hkc hlow
    have hup : tblGet tbl (jsToUpper k) = some c := hinv.2 k c hkc
    have hupt : jsToUpper k = jsToUpper t := jsToUpper_of_jsToLower_eq k t hlow
    have hmem : jsToUpper t ∈ ensureKeys t := jsToUpper_mem_ensureKeys t htne
    have hnone := findSome?_none_all _ _ hf (jsToUpper t) hmem
    rw [hupt, hnone] at hup
    cases hup
  constructor
  · intro k₁ k₂ c₁ c₂ h₁ h₂ hlow
    rw [tblGet_ensureTypeColors] at h₁ h₂
    by_cases m₁ : k₁ ∈ ensureKeys t <;> by_cases m₂ : k₂ ∈ ensureKeys t
    · rw [if_pos m₁] at h₁
      rw [if_pos m₂] at h₂
      rw [← Option.some.inj h₁, ← Option.some.inj h₂]
    · rw [if_pos m₁] at h₁
      rw [if_neg m₂] at h₂
      -- k₂ is an old entry in the class of t
      have hlow₂ : jsToLower k₂ = jsToLower t := by
        rw [← hlow, hclassK k₁ m₁]
      unfold ensureColor at h₁
      rcases hf : (ensureKeys t).findSome? (fun x => tblGet tbl x) with _ | c0
      · exact (hfresh_no_class hf (ne_nil_of_mem_ensureKeys t k₁ m₁) k₂ c₂ h₂ hlow₂).elim
      · rw [hf] at h₁
        rcases findSome?_some_exists _ _ _ hf with ⟨k0, hk0mem, hk0⟩
        have hl : jsToLower k₂ = jsToLower k0 := by
          rw [hlow₂, ← hclassK k0 hk0mem]
        have := hinv.1 k₂ k0 c₂ c0 h₂ hk0 hl
        rw [← Option.some.inj h₁, this]
    · rw [if_neg m₁] at h₁
      rw [if_pos m₂] at h₂
      have hlow₁ : jsToLower k₁ = jsToLower t := by
        rw [hlow, hclassK k₂ m₂]
      unfold ensureColor at h₂
      rcases hf : (ensureKeys t).findSome? (fun x => tblGet tbl x) with _ | c0
      · exact (hfresh_no_class hf (ne_nil_of_mem_ensureKeys t k₂ m₂) k₁ c₁ h₁ hlow₁).elim
      · rw [hf] at h₂
        rcases findSome?_some_exists _ _ _ hf with ⟨k0, hk0mem, hk0⟩
        have hl : jsToLower k₁ = jsToLower k0 := by
          rw [hlow₁, ← hclassK k0 hk0mem]
        have := hinv.1 k₁ k0 c₁ c0 h₁ hk0 hl
        rw [← Option.some.inj h₂, this]
    · rw [if_neg m₁] at h₁
      rw [if_neg m₂] at h₂
      exact hinv.1 k₁ k₂ c₁ c₂ h₁ h₂ hlow
  · intro k c hkc
    rw [tblGet_ensureTypeColors] at hkc ⊢
    by_cases mk : k ∈ ensureKeys t
    · rw [if_pos mk] at hkc
      have : jsToUpper k ∈ ensureKeys t := by
        rw [jsToUpper_of_mem_ensureKeys t k htrim mk]
        exact jsToUpper_mem_ensureKeys t (ne_nil_of_mem_ensureKeys t k mk)
      rw [if_pos this]
      exact hkc
    · rw [if_neg mk] at hkc
      have hup : tblGet tbl (jsToUpper k) = some c := hinv.2 k c hkc
      by_cases mu : jsToUpper k ∈ ensureKeys t
      · rw [if_pos mu]
        have hlowk : jsToLower k = jsToLower t := by
          rw [← jsToLower_jsToUpper k]
          exact jsToLower_of_mem_ensureKeys t (jsToUpper k) htrim mu
        unfold ensureColor
        rcases hf : (ensureKeys t).findSome? (fun x => tblGet tbl x) with _ | c0
        · exact (hfresh_no_class hf (ne_nil_of_mem_ensureKeys t (jsToUpper k) mu) k c hkc
            hlowk).elim
        · rcases findSome?_some_exists _ _ _ hf with ⟨k0, hk0mem, hk0⟩
          have hl : jsToLower k = jsToLower k0 := by
            rw [hlowk, ← hclassK k0 hk0mem]
          rw [hinv.1 k k0 c c0 hkc hk0 hl]
      · rw [if_neg mu]
        exact hup

/-- The empty table is consistent. -/
theorem tableConsistent_nil : TableConsistent [] := by
  constructor
  · intro k₁ k₂ c₁ c₂ h₁
    cases h₁
  · intro k c h
    cases h

/-- Folding trimmed-name registrations preserves consistency and every
assigned entry. -/
theorem foldl_ensureTypeColors_keeps (ts : List JStr) :
    ∀ (tbl : ColorTable), (∀ t ∈ ts, jsTrim t = t) → TableConsistent tbl →
      TableConsistent (ts.foldl ensureTypeColors tbl) ∧
      (∀ k c, tblGet tbl k = some c →
        tblGet (ts.foldl ensureTypeColors tbl) k = some c) := by
  induction ts with
  | nil => exact fun tbl _ hinv => ⟨hinv, fun _ _ hk => hk⟩
  | cons t ts ih =>
      intro tbl htrim hinv
      have ht : jsTrim t = t := htrim t (List.mem_cons_self _ _)
      have hts : ∀ x ∈ ts, jsTrim x = x := fun x hx => htrim x (List.mem_cons_of_mem _ hx)
      have hinv1 := ensureTypeColors_consistent tbl t ht hinv
      rcases ih (ensureTypeColors tbl t) hts hinv1 with ⟨hc, hkeep⟩
      refine ⟨by rwa [List.foldl_cons], ?_⟩
      intro k c hk
      rw [List.foldl_cons]
      exact hkeep k c (ensureTypeColors_keeps tbl t ht hinv k c hk)

/-- **C4 (amended)** — across any sequence of `ensureTypeColors`
registrations whose type names are ASCII and carry no leading or trailing
whitespace, once a key of the colour table is assigned a colour, no later
registration changes that key: the entry survives with the same colour, so
the same type name always yields the same colour.  Both restrictions are
needed.  With untrimmed names the source can overwrite a key (see the
counterexample).  With non-ASCII names JS Unicode special casing breaks
the invariant even for trimmed names: "ẞ".toLowerCase() = "ß" while
"ß".toUpperCase() = "SS", so upper∘lower ≠ upper and the trimmed sequence
"ẞ-a", "SS-a", "ß-a" overwrites the assigned key "SS-A"; the ASCII
hypothesis keeps the claim inside the domain where the embedding's case
maps coincide with the JS ones (on ASCII names every derived key is again
ASCII). -/
theorem type_color_assign_once_for_trimmed_ascii_names
    (ts₁ ts₂ : List JStr) (htrim : ∀ t ∈ ts₁ ++ ts₂, jsTrim t = t)
    (hascii : ∀ t ∈ ts₁ ++ ts₂, ∀ u ∈ t, u < 128)
    (k c : JStr) (hk : tblGet (runEnsureTypeColors ts₁) k = some c) :
    tblGet (runEnsureTypeColors (ts₁ ++ ts₂)) k = some c := by
  unfold runEnsureTypeColors at hk ⊢
  rw [List.foldl_append]
  have h₁ : ∀ t ∈ ts₁, jsTrim t = t := fun t ht =>
    htrim t (List.mem_append.mpr (Or.inl ht))
  have h₂ : ∀ t ∈ ts₂, jsTrim t = t := fun t ht =>
    htrim t (List.mem_append.mpr (Or.inr ht))
  have hinv₁ := (foldl_ensureTypeColors_keeps ts₁ [] h₁ tableConsistent_nil).1
  exact (foldl_ensureTypeColors_keeps ts₂ _ h₂ hinv₁).2 k c hk

/-- **C4 witness** — registering the trimmed ASCII names "a-b" then "A-b":
the entry written for key "a-b" by the first registration survives the
second with the same colour. -/
theorem type_color_assign_once_witness :
    tblGet (runEnsureTypeColors ([jstr "a-b"] ++ [jstr "A-b"])) (jstr "a-b") =
      some (stableTypeColor (jstr "a-b")) :=
  type_color_assign_once_for_trimmed_ascii_names [jstr "a-b"] [jstr "A-b"]
    (by decide) (by decide) (jstr "a-b") (stableTypeColor (jstr "a-b")) (by decide)

/-- **C4 counterexample** — with type names that carry whitespace the
assign-once invariant fails in the source: in the call sequence "a-b",
" A-b", "A-b", the first call assigns key "A-B" the hash colour of "a-b";
the second call (all of whose key variants are new) assigns key "A-b" the
hash colour of "A-b"; the third call finds "A-b" first among its variants
and overwrites the already-assigned keys "A-B" and "a-b" with that
different colour. -/
theorem type_color_overwrite_counterexample :
    (tblGet (runEnsureTypeColors [jstr "a-b", jstr " A-b"]) (jstr "A-B")).isSome = true ∧
    tblGet (runEnsureTypeColors [jstr "a-b", jstr " A-b", jstr "A-b"]) (jstr "A-B") ≠
      tblGet (runEnsureTypeColors [jstr "a-b", jstr " A-b"]) (jstr "A-B") := by
  constructor
  · decide
  · decide

/-! ### File-loader and tab-manager theorems -/

/-- **C5 (amended)** — for every path with extension `.png` and every byte
buffer whose PNG text chunks parse to a table containing neither an entry
named "workflow" nor one named "Workflow", the loader returns
`{ok: false, error: "PNG metadata missing workflow field"}`. -/
theorem png_without_workflow_entry_errors (p : JStr) (buf : List Nat)
    (tbl : List (JStr × JStr))
    (hext : extnameLower p = jstr ".png")
    (hparse : parsePngTextChunks buf = .ok tbl)
    (h1 : tblGet tbl (jstr "workflow") = none)
    (h2 : tblGet tbl (jstr "Workflow") = none) :
    loadWorkflowFromFile p buf =
      .err p (jstr "PNG metadata missing workflow field") := by
  unfold loadWorkflowFromFile
  rw [hext]
  rw [if_neg (by decide), if_pos rfl, hparse]
  simp only [h1, h2]

/-- **C5 witness** — a concrete PNG holding one `tEXt` chunk keyed "other":
the parsed table has no workflow entry and the loader reports the missing
field. -/
theorem png_without_workflow_entry_witness :
    loadWorkflowFromFile (jstr "wf.png")
      ([137, 80, 78, 71, 13, 10, 26, 10] ++
        [0, 0, 0, 11] ++ jstr "tEXt" ++ (jstr "other" ++ [0] ++ jstr "hello") ++
        [0, 0, 0, 0]) =
      .err (jstr "wf.png") (jstr "PNG metadata missing workflow field") :=
  png_without_workflow_entry_errors (jstr "wf.png") _
    [(jstr "other", jstr "hello")] (by decide) rfl (by decide) (by decide)

/-- **C5 counterexample** — a PNG whose only text chunk is keyed
"Workflow" (capital W): its chunk table contains no entry named
"workflow", yet the loader returns `ok: true` rather than the missing-field
error, because the source also accepts the "Workflow" spelling. -/
theorem png_capital_workflow_counterexample :
    parsePngTextChunks
        ([137, 80, 78, 71, 13, 10, 26, 10] ++
          [0, 0, 0, 14] ++ jstr "tEXt" ++ (jstr "Workflow" ++ [0] ++ jstr "hello") ++
          [0, 0, 0, 0]) =
      .ok [(jstr "Workflow", jstr "hello")] ∧
    (loadWorkflowFromFile (jstr "wf.png")
        ([137, 80, 78, 71, 13, 10, 26, 10] ++
          [0, 0, 0, 14] ++ jstr "tEXt" ++ (jstr "Workflow" ++ [0] ++ jstr "hello") ++
          [0, 0, 0, 0])).isOk = true := by
  exact ⟨rfl, by decide⟩

/-- **C6 (confirmed)** — when no tab holds the requested path and the read
fails, `openWorkflowInNewTab` only surfaces the error in the status line:
the tab list (including every saved view), the active tab id and even the
viewport are exactly as before, and no tab is created. -/
theorem load_failure_changes_only_status {α : Type} (st : AppState α) (fitView : View)
    (path sp e : JStr) (newId : Nat)
    (hno : st.tabs.find? (fun t => t.sourcePath = path) = none) :
    (openWorkflowInNewTab st fitView path (.err sp e) newId).tabs = st.tabs ∧
    (openWorkflowInNewTab st fitView path (.err sp e) newId).activeTabId = st.activeTabId ∧
    (openWorkflowInNewTab st fitView path (.err sp e) newId).canvasView = st.canvasView ∧
    (openWorkflowInNewTab st fitView path (.err sp e) newId).status = jstr "Error: " ++ e := by
  unfold openWorkflowInNewTab
  rw [hno]
  exact ⟨rfl, rfl, rfl, rfl⟩

/-- **C6 witness** — a concrete failing read for path "b.json" against a
state holding one tab for "a.json": only the status changes. -/
theorem load_failure_changes_only_status_witness :
    (openWorkflowInNewTab (α := Unit)
        ⟨[⟨1, jstr "a.json", jstr "a.json", (), none⟩], some 1, jstr "Ready", ⟨0, 0, 1⟩⟩
        ⟨0, 0, 1⟩ (jstr "b.json") (.err (jstr "b.json") (jstr "boom")) 2).tabs =
      [⟨1, jstr "a.json", jstr "a.json", (), none⟩] ∧
    (openWorkflowInNewTab (α := Unit)
        ⟨[⟨1, jstr "a.json", jstr "a.json", (), none⟩], some 1, jstr "Ready", ⟨0, 0, 1⟩⟩
        ⟨0, 0, 1⟩ (jstr "b.json") (.err (jstr "b.json") (jstr "boom")) 2).activeTabId =
      some 1 ∧
    (openWorkflowInNewTab (α := Unit)
        ⟨[⟨1, jstr "a.json", jstr "a.json", (), none⟩], some 1, jstr "Ready", ⟨0, 0, 1⟩⟩
        ⟨0, 0, 1⟩ (jstr "b.json") (.err (jstr "b.json") (jstr "boom")) 2).canvasView =
      ⟨0, 0, 1⟩ ∧
    (openWorkflowInNewTab (α := Unit)
        ⟨[⟨1, jstr "a.json", jstr "a.json", (), none⟩], some 1, jstr "Ready", ⟨0, 0, 1⟩⟩
        ⟨0, 0, 1⟩ (jstr "b.json") (.err (jstr "b.json") (jstr "boom")) 2).status =
      jstr "Error: " ++ jstr "boom" :=
  load_failure_changes_only_status _ _ _ _ _ 2 (by decide)

/-- Helper: setting a tab's saved view changes neither the id/path shape
nor the length of the tab list. -/
theorem updateTabView_map_sourcePath {α : Type} (ts : List (Tab α)) (id : Nat) (v : View) :
    (updateTabView ts id v).map (fun t => t.sourcePath) = ts.map (fun t => t.sourcePath) := by
  induction ts with
  | nil => rfl
  | cons t ts ih =>
      by_cases h : t.id = id
      · simp [updateTabView, h]
      · simp [updateTabView, h, ih]

/-- Helper: saving the active tab's view keeps the source-path shape. -/
theorem saveActiveTabView_map_sourcePath {α : Type} (st : AppState α) :
    (saveActiveTabView st).tabs.map (fun t => t.sourcePath) =
      st.tabs.map (fun t => t.sourcePath) := by
  unfold saveActiveTabView
  rcases st.activeTabId with _ | id
  · rfl
  · exact updateTabView_map_sourcePath _ _ _

/-- Helper: activating a tab always ends with that tab active and keeps the
source-path shape of the tab list. -/
theorem activateTab_facts {α : Type} (st : AppState α) (fitView : View) (id : Nat) :
    (activateTab st fitView id).tabs.map (fun t => t.sourcePath) =
      st.tabs.map (fun t => t.sourcePath) ∧
    (activateTab st fitView id).activeTabId = some id := by
  unfold activateTab
  by_cases h : st.activeTabId = some id
  · rw [if_pos h]
    exact ⟨rfl, h⟩
  · rw [if_neg h]
    rcases hf : (saveActiveTabView st).tabs.find? (fun t => t.id = id) with _ | tab
    · by_cases he : (saveActiveTabView st).tabs.isEmpty = true
      · simp only [hf, he, if_pos]
        exact ⟨saveActiveTabView_map_sourcePath st, trivial⟩
      · simp only [hf, he, if_neg, ite_false, Bool.false_eq_true]
        exact ⟨saveActiveTabView_map_sourcePath st, trivial⟩
    · rcases hv : tab.view with _ | v
      · simp only [hf, hv]
        refine ⟨?_, trivial⟩
        rw [updateTabView_map_sourcePath]
        exact saveActiveTabView_map_sourcePath st
      · simp only [hf, hv]
        exact ⟨saveActiveTabView_map_sourcePath st, trivial⟩

/-- **C7 (confirmed)** — opening a path that already has a tab activates the
existing tab instead of creating one: the tab count and the source-path
list are unchanged, the existing tab becomes (or stays) active, and
source-path distinctness is preserved, so no duplicate tab for the path
ever arises. -/
theorem open_existing_path_activates_without_new_tab {α : Type} (st : AppState α)
    (fitView : View) (path : JStr) (payload : WorkflowPayload α) (newId : Nat) (ex : Tab α)
    (hex : st.tabs.find? (fun t => t.sourcePath = path) = some ex)
    (hnodup : (st.tabs.map (fun t => t.sourcePath)).Nodup) :
    (openWorkflowInNewTab st fitView path payload newId).tabs.length = st.tabs.length ∧
    (openWorkflowInNewTab st fitView path payload newId).tabs.map (fun t => t.sourcePath) =
      st.tabs.map (fun t => t.sourcePath) ∧
    (openWorkflowInNewTab st fitView path payload newId).activeTabId = some ex.id ∧
    ((openWorkflowInNewTab st fitView path payload newId).tabs.map
      (fun t => t.sourcePath)).Nodup := by
  unfold openWorkflowInNewTab
  rw [hex]
  rcases activateTab_facts st fitView ex.id with ⟨hmap, hact⟩
  refine ⟨?_, hmap, hact, ?_⟩
  · have := congrArg List.length hmap
    simpa using this
  · rw [hmap]
    exact hnodup

/-- **C7 witness** — opening "a.json" while a tab for it exists: the tab
count stays 1, the path list is unchanged and still duplicate-free, and
tab 1 becomes active. -/
theorem open_existing_path_witness :
    (openWorkflowInNewTab (α := Unit)
        ⟨[⟨1, jstr "a.json", jstr "a.json", (), none⟩], none, jstr "Ready", ⟨0, 0, 1⟩⟩
        ⟨0, 0, 1⟩ (jstr "a.json") (.err (jstr "x") (jstr "y")) 2).tabs.length =
      List.length (α := Tab Unit) [⟨1, jstr "a.json", jstr "a.json", (), none⟩] ∧
    (openWorkflowInNewTab (α := Unit)
        ⟨[⟨1, jstr "a.json", jstr "a.json", (), none⟩], none, jstr "Ready", ⟨0, 0, 1⟩⟩
        ⟨0, 0, 1⟩ (jstr "a.json") (.err (jstr "x") (jstr "y")) 2).tabs.map
        (fun t => t.sourcePath) =
      List.map (fun t => t.sourcePath)
        (α := Tab Unit) [⟨1, jstr "a.json", jstr "a.json", (), none⟩] ∧
    (openWorkflowInNewTab (α := Unit)
        ⟨[⟨1, jstr "a.json", jstr "a.json", (), none⟩], none, jstr "Ready", ⟨0, 0, 1⟩⟩
        ⟨0, 0, 1⟩ (jstr "a.json") (.err (jstr "x") (jstr "y")) 2).activeTabId =
      some (Tab.id (α := Unit) ⟨1, jstr "a.json", jstr "a.json", (), none⟩) ∧
    ((openWorkflowInNewTab (α := Unit)
        ⟨[⟨1, jstr "a.json", jstr "a.json", (), none⟩], none, jstr "Ready", ⟨0, 0, 1⟩⟩
        ⟨0, 0, 1⟩ (jstr "a.json") (.err (jstr "x") (jstr "y")) 2).tabs.map
        (fun t => t.sourcePath)).Nodup :=
  open_existing_path_activates_without_new_tab _ _ _ _ 2
    ⟨1, jstr "a.json", jstr "a.json", (), none⟩ (by decide) (by decide)

/-! ### Text-wrapping theorems -/

/-- Appending only grows a monotone measure. -/
theorem measure_le_append (measure : JStr → ℚ)
    (hm : ∀ s c, measure s ≤ measure (s ++ [c])) (b : JStr) :
    ∀ a : JStr, measure a ≤ measure (a ++ b) := by
  induction b with
  | nil => intro a; simp
  | cons c b ih =>
      intro a
      have h1 := hm a c
      have h2 := ih (a ++ [c])
      rw [List.append_assoc] at h2
      exact h1.trans h2

/-- `dropWhileEnd` removes an all-`p` suffix. -/
theorem dropWhileEnd_decomp (p : Nat → Bool) (s : List Nat) :
    ∃ suf, s = dropWhileEnd p s ++ suf ∧ ∀ c ∈ suf, p c = true := by
  induction s with
  | nil => exact ⟨[], rfl, fun c hc => absurd hc (List.not_mem_nil c)⟩
  | cons c tl ih =>
      rcases ih with ⟨suf, heq, hall⟩
      rw [dropWhileEnd_cons]
      by_cases h : ((dropWhileEnd p tl).isEmpty && p c) = true
      · rw [if_pos h]
        have hdw : dropWhileEnd p tl = [] := by
          rcases Bool.and_eq_true_iff.mp h with ⟨h1, _⟩
          cases hd : dropWhileEnd p tl with
          | nil => rfl
          | cons x xs => rw [hd] at h1; simp [List.isEmpty] at h1
        refine ⟨c :: tl, rfl, ?_⟩
        intro x hx
        rcases List.mem_cons.mp hx with rfl | hx
        · exact (Bool.and_eq_true_iff.mp h).2
        · rw [hdw] at heq
          rw [List.nil_append] at heq
          exact hall x (heq ▸ hx)
      · rw [if_neg h]
        exact ⟨suf, by rw [List.cons_append, ← heq], hall⟩

/-- Trimming the end never grows a monotone measure. -/
theorem measure_trimEnd_le (measure : JStr → ℚ)
    (hm : ∀ s c, measure s ≤ measure (s ++ [c])) (s : JStr) :
    measure (jsTrimEnd s) ≤ measure s := by
  rcases dropWhileEnd_decomp isWsCode s with ⟨suf, heq, _⟩
  calc measure (jsTrimEnd s) ≤ measure (jsTrimEnd s ++ suf) :=
        measure_le_append measure hm suf _
    _ = measure s := by rw [jsTrimEnd, ← heq]

/-- Trimming a single character leaves it or nothing. -/
theorem trimEnd_single (c : Nat) : jsTrimEnd [c] = [] ∨ jsTrimEnd [c] = [c] := by
  unfold jsTrimEnd
  rw [dropWhileEnd_cons]
  by_cases h : ((dropWhileEnd isWsCode []).isEmpty && isWsCode c) = true
  · rw [if_pos h]
    exact Or.inl rfl
  · rw [if_neg h]
    exact Or.inr rfl

/-- An acceptable current line stays acceptable after `trimEnd`. -/
theorem lineOk_trimEnd (measure : JStr → ℚ) (maxWidth : ℚ)
    (hm : ∀ s c, measure s ≤ measure (s ++ [c])) (l : JStr)
    (h : LineOk measure maxWidth l) : LineOk measure maxWidth (jsTrimEnd l) := by
  rcases h with h | h | h
  · exact Or.inl ((measure_trimEnd_le measure hm l).trans h)
  · cases l with
    | nil => cases h
    | cons c tl =>
        cases tl with
        | nil =>
            rcases trimEnd_single c with ht | ht
            · exact Or.inr (Or.inr ht)
            · rw [ht]
              exact Or.inr (Or.inl rfl)
        | cons d tl2 => simp at h
  · rw [h]
    exact Or.inr (Or.inr rfl)

/-- The character fallback loop only emits acceptable lines and keeps its
chunk acceptable. -/
theorem wrapCharStep_fold_ok (measure : JStr → ℚ) (maxWidth : ℚ) (token : JStr) :
    ∀ q : List JStr × JStr,
      (∀ l ∈ q.1, LineOk measure maxWidth l) → LineOk measure maxWidth q.2 →
      (∀ l ∈ (token.foldl (wrapCharStep measure maxWidth) q).1, LineOk measure maxWidth l) ∧
        LineOk measure maxWidth (token.foldl (wrapCharStep measure maxWidth) q).2 := by
  induction token with
  | nil => exact fun q hl hc => ⟨hl, hc⟩
  | cons ch tok ih =>
      intro q hl hc
      rw [List.foldl_cons]
      apply ih
      · intro l hlmem
        unfold wrapCharStep at hlmem
        by_cases hcond : maxWidth < measure (q.2 ++ [ch]) ∧ ¬ q.2.isEmpty = true
        · rw [if_pos hcond] at hlmem
          rcases List.mem_append.mp hlmem with hmem | hmem
          · exact hl l hmem
          · rw [List.mem_singleton.mp hmem]
            exact hc
        · rw [if_neg hcond] at hlmem
          exact hl l hlmem
      · unfold wrapCharStep
        by_cases hcond : maxWidth < measure (q.2 ++ [ch]) ∧ ¬ q.2.isEmpty = true
        · rw [if_pos hcond]
          exact Or.inr (Or.inl rfl)
        · rw [if_neg hcond]
          rcases not_and_or.mp hcond with hle | hne
          · exact Or.inl (not_lt.mp hle)
          · have : q.2 = [] := by
              rcases not_not.mp hne with h
              cases hq : q.2 with
              | nil => rfl
              | cons x xs => rw [hq] at h; simp [List.isEmpty] at h
            rw [this]
            exact Or.inr (Or.inl rfl)

/-- One wrapping step only emits acceptable lines and keeps the current
line acceptable. -/
theorem wrapStep_ok (measure : JStr → ℚ) (maxWidth : ℚ)
    (hm : ∀ s c, measure s ≤ measure (s ++ [c])) (p : List JStr × JStr) (token : JStr)
    (hl : ∀ l ∈ p.1, LineOk measure maxWidth l) (hc : LineOk measure maxWidth p.2) :
    (∀ l ∈ (wrapStep measure maxWidth p token).1, LineOk measure maxWidth l) ∧
      LineOk measure maxWidth (wrapStep measure maxWidth p token).2 := by
  unfold wrapStep
  by_cases h1 : measure (if p.2.isEmpty then token else p.2 ++ token) ≤ maxWidth
  · rw [if_pos h1]
    exact ⟨hl, Or.inl h1⟩
  · rw [if_neg h1]
    have hl1 : ∀ l ∈ (if p.2.isEmpty then p.1 else p.1 ++ [jsTrimEnd p.2]),
        LineOk measure maxWidth l := by
      by_cases he : p.2.isEmpty = true
      · rw [if_pos he]
        exact hl
      · rw [if_neg he]
        intro l hlm
        rcases List.mem_append.mp hlm with hmem | hmem
        · exact hl l hmem
        · rw [List.mem_singleton.mp hmem]
          exact lineOk_trimEnd measure maxWidth hm p.2 hc
    by_cases h2 : measure token ≤ maxWidth
    · rw [if_pos h2]
      exact ⟨hl1, Or.inl h2⟩
    · rw [if_neg h2]
      exact wrapCharStep_fold_ok measure maxWidth token _ hl1 (Or.inr (Or.inr rfl))

/-- The token loop only emits acceptable lines and keeps the current line
acceptable. -/
theorem wrapStep_fold_ok (measure : JStr → ℚ) (maxWidth : ℚ)
    (hm : ∀ s c, measure s ≤ measure (s ++ [c])) (tokens : List JStr) :
    ∀ p : List JStr × JStr,
      (∀ l ∈ p.1, LineOk measure maxWidth l) → LineOk measure maxWidth p.2 →
      (∀ l ∈ (tokens.foldl (wrapStep measure maxWidth) p).1, LineOk measure maxWidth l) ∧
        LineOk measure maxWidth (tokens.foldl (wrapStep measure maxWidth) p).2 := by
  induction tokens with
  | nil => exact fun p hl hc => ⟨hl, hc⟩
  | cons token tokens ih =>
      intro p hl hc
      rw [List.foldl_cons]
      rcases wrapStep_ok measure maxWidth hm p token hl hc with ⟨hl2, hc2⟩
      exact ih _ hl2 hc2

/-- A whole paragraph only emits acceptable lines. -/
theorem wrapParagraph_ok (measure : JStr → ℚ) (maxWidth : ℚ)
    (hm : ∀ s c, measure s ≤ measure (s ++ [c])) (lines : List JStr) (paragraph : JStr)
    (hl : ∀ l ∈ lines, LineOk measure maxWidth l) :
    ∀ l ∈ wrapParagraph measure maxWidth lines paragraph, LineOk measure maxWidth l := by
  unfold wrapParagraph
  by_cases he : paragraph.isEmpty = true
  · rw [if_pos he]
    intro l hlm
    rcases List.mem_append.mp hlm with hmem | hmem
    · exact hl l hmem
    · rw [List.mem_singleton.mp hmem]
      exact Or.inr (Or.inr rfl)
  · rw [if_neg he]
    rcases wrapStep_fold_ok measure maxWidth hm (tokenizeWs paragraph) (lines, [])
      hl (Or.inr (Or.inr rfl)) with ⟨hl2, hc2⟩
    by_cases h2 : ((tokenizeWs paragraph).foldl (wrapStep measure maxWidth) (lines, [])).2.isEmpty = true
    · rw [if_pos h2]
      exact hl2
    · rw [if_neg h2]
      intro l hlm
      rcases List.mem_append.mp hlm with hmem | hmem
      · exact hl2 l hmem
      · rw [List.mem_singleton.mp hmem]
        exact lineOk_trimEnd measure maxWidth hm _ hc2

/-- Every line the wrapper emits is acceptable. -/
theorem wrapTextByWidth_lines_ok (measure : JStr → ℚ) (maxWidth : ℚ)
    (hm : ∀ s c, measure s ≤ measure (s ++ [c])) (text : JStr) :
    ∀ l ∈ wrapTextByWidth measure text maxWidth, LineOk measure maxWidth l := by
  unfold wrapTextByWidth
  have hgen : ∀ (ps : List JStr) (lines : List JStr),
      (∀ l ∈ lines, LineOk measure maxWidth l) →
      ∀ l ∈ ps.foldl (wrapParagraph measure maxWidth) lines, LineOk measure maxWidth l := by
    intro ps
    induction ps with
    | nil => exact fun lines hl => hl
    | cons p ps ih =>
        intro lines hl
        rw [List.foldl_cons]
        exact ih _ (wrapParagraph_ok measure maxWidth hm lines p hl)
  exact hgen _ [] (fun l hlm => absurd hlm (List.not_mem_nil l))

/-- `visibleChars` distributes over append. -/
theorem visibleChars_append (a b : JStr) :
    visibleChars (a ++ b) = visibleChars a ++ visibleChars b := by
  unfold visibleChars
  rw [List.filter_append]

/-- Trimming the end never loses a visible character. -/
theorem visibleChars_trimEnd (s : JStr) : visibleChars (jsTrimEnd s) = visibleChars s := by
  rcases dropWhileEnd_decomp isWsCode s with ⟨suf, heq, hall⟩
  have hsuf : visibleChars suf = [] := by
    unfold visibleChars
    rw [List.filter_eq_nil_iff]
    intro c hc
    rw [hall c hc]
    simp
  calc visibleChars (jsTrimEnd s)
      = visibleChars (jsTrimEnd s) ++ visibleChars suf := by rw [hsuf, List.append_nil]
    _ = visibleChars (jsTrimEnd s ++ suf) := (visibleChars_append _ _).symm
    _ = visibleChars s := by rw [jsTrimEnd, ← heq]

/-- The visible content carried by a wrapping state. -/
def lineContent (p : List JStr × JStr) : JStr :=
  (p.1.map visibleChars).join ++ visibleChars p.2

/-- One character step moves one character of content. -/
theorem wrapCharStep_content (measure : JStr → ℚ) (maxWidth : ℚ) (q : List JStr × JStr)
    (ch : Nat) :
    lineContent (wrapCharStep measure maxWidth q ch) = lineContent q ++ visibleChars [ch] := by
  unfold wrapCharStep lineContent
  by_cases hcond : maxWidth < measure (q.2 ++ [ch]) ∧ ¬ q.2.isEmpty = true
  · rw [if_pos hcond]
    simp [visibleChars_append, List.join_append]
  · rw [if_neg hcond]
    simp [visibleChars_append, List.append_assoc]

/-- The character loop preserves content. -/
theorem wrapCharStep_fold_content (measure : JStr → ℚ) (maxWidth : ℚ) (token : JStr) :
    ∀ q : List JStr × JStr,
      lineContent (token.foldl (wrapCharStep measure maxWidth) q) =
        lineContent q ++ visibleChars token := by
  induction token with
  | nil => intro q; simp [visibleChars]
  | cons ch tok ih =>
      intro q
      rw [List.foldl_cons, ih, wrapCharStep_content]
      have : visibleChars (ch :: tok) = visibleChars [ch] ++ visibleChars tok := by
        rw [show (ch :: tok) = [ch] ++ tok from rfl, visibleChars_append]
      rw [this, List.append_assoc]

/-- One token step moves one token of content. -/
theorem wrapStep_content (measure : JStr → ℚ) (maxWidth : ℚ) (p : List JStr × JStr)
    (token : JStr) :
    lineContent (wrapStep measure maxWidth p token) = lineContent p ++ visibleChars token := by
  unfold wrapStep
  have hnext : visibleChars (if p.2.isEmpty then token else p.2 ++ token) =
      visibleChars p.2 ++ visibleChars token := by
    by_cases he : p.2.isEmpty = true
    · have : p.2 = [] := by
        cases hq : p.2 with
        | nil => rfl
        | cons x xs => rw [hq] at he; simp [List.isEmpty] at he
      rw [if_pos he, this]
      rfl
    · rw [if_neg he, visibleChars_append]
  have hlines1 : ((if p.2.isEmpty then p.1 else p.1 ++ [jsTrimEnd p.2]).map
      visibleChars).join = (p.1.map visibleChars).join ++ visibleChars p.2 := by
    by_cases he : p.2.isEmpty = true
    · have : p.2 = [] := by
        cases hq : p.2 with
        | nil => rfl
        | cons x xs => rw [hq] at he; simp [List.isEmpty] at he
      rw [if_pos he, this]
      simp [visibleChars]
    · rw [if_neg he]
      simp [List.join_append, visibleChars_trimEnd]
  by_cases h1 : measure (if p.2.isEmpty then token else p.2 ++ token) ≤ maxWidth
  · rw [if_pos h1]
    unfold lineContent
    rw [hnext, ← List.append_assoc]
  · rw [if_neg h1]
    by_cases h2 : measure token ≤ maxWidth
    · rw [if_pos h2]
      unfold lineContent
      rw [hlines1, List.append_assoc]
    · rw [if_neg h2]
      rw [wrapCharStep_fold_content]
      unfold lineContent
      rw [hlines1]
      simp [visibleChars, List.append_assoc]

/-- The token loop preserves content. -/
theorem wrapStep_fold_content (measure : JStr → ℚ) (maxWidth : ℚ) (tokens : List JStr) :
    ∀ p : List JStr × JStr,
      lineContent (tokens.foldl (wrapStep measure maxWidth) p) =
        lineContent p ++ (tokens.map visibleChars).join := by
  induction tokens with
  | nil => intro p; simp
  | cons token tokens ih =>
      intro p
      rw [List.foldl_cons, ih, wrapStep_content]
      simp [List.append_assoc]

/-- Tokens are never empty. -/
theorem tokenizeWs_ne_nil (s : JStr) : ∀ t ∈ tokenizeWs s, t ≠ [] := by
  induction s with
  | nil => intro t ht; cases ht
  | cons c tl ih =>
      intro t ht
      unfold tokenizeWs at ht
      rcases h : tokenizeWs tl with _ | ⟨t0, rest⟩
      · rw [h] at ht
        rw [List.mem_singleton.mp ht]
        simp
      · rw [h] at ht
        rcases t0 with _ | ⟨d, t2⟩
        · rw [List.mem_singleton.mp ht]
          simp
        · have ht2 : t ∈ (if isWsCode c = isWsCode d then ((c :: d :: t2) :: rest : List JStr)
              else [c] :: (d :: t2) :: rest) := ht
          by_cases hw : isWsCode c = isWsCode d
          · rw [if_pos hw] at ht2
            rcases List.mem_cons.mp ht2 with rfl | hmem
            · simp
            · exact ih t (h ▸ List.mem_cons_of_mem _ hmem)
          · rw [if_neg hw] at ht2
            rcases List.mem_cons.mp ht2 with rfl | hmem
            · simp
            · exact ih t (h ▸ hmem)

/-- Tokenization partitions the paragraph exactly. -/
theorem tokenizeWs_join (p : JStr) : (tokenizeWs p).join = p := by
  induction p with
  | nil => rfl
  | cons c tl ih =>
      unfold tokenizeWs
      rcases ht : tokenizeWs tl with _ | ⟨t, rest⟩
      · rw [ht] at ih
        simp only [List.join] at ih
        show ([[c]] : List JStr).join = c :: tl
        rw [← ih]
        rfl
      · rcases t with _ | ⟨d, t2⟩
        · exact absurd rfl (tokenizeWs_ne_nil tl [] (ht ▸ List.mem_cons_self _ _))
        · rw [ht] at ih
          have ih2 : (d :: t2) ++ rest.join = tl := by simpa using ih
          by_cases hw : isWsCode c = isWsCode d
          · show (if isWsCode c = isWsCode d then ((c :: d :: t2) :: rest : List JStr)
              else [c] :: (d :: t2) :: rest).join = c :: tl
            rw [if_pos hw]
            show (c :: d :: t2) ++ rest.join = c :: tl
            rw [← ih2]
            rfl
          · show (if isWsCode c = isWsCode d then ((c :: d :: t2) :: rest : List JStr)
              else [c] :: (d :: t2) :: rest).join = c :: tl
            rw [if_neg hw]
            show [c] ++ ((d :: t2) ++ rest.join) = c :: tl
            rw [ih2]
            rfl

/-- A paragraph contributes exactly its visible characters. -/
theorem wrapParagraph_content (measure : JStr → ℚ) (maxWidth : ℚ) (lines : List JStr)
    (paragraph : JStr) :
    ((wrapParagraph measure maxWidth lines paragraph).map visibleChars).join =
      (lines.map visibleChars).join ++ visibleChars paragraph := by
  unfold wrapParagraph
  by_cases he : paragraph.isEmpty = true
  · have hp : paragraph = [] := by
      cases hq : paragraph with
      | nil => rfl
      | cons x xs => rw [hq] at he; simp [List.isEmpty] at he
    rw [if_pos he, hp]
    simp [visibleChars]
  · rw [if_neg he]
    have hfold := wrapStep_fold_content measure maxWidth (tokenizeWs paragraph) (lines, [])
    have hjoin : ((tokenizeWs paragraph).map visibleChars).join = visibleChars paragraph := by
      have hrec : ∀ ts : List JStr, (ts.map visibleChars).join = visibleChars ts.join := by
        intro ts
        induction ts with
        | nil => simp [visibleChars]
        | cons t ts ih => simp [visibleChars_append, ih]
      rw [hrec, tokenizeWs_join]
    set r := (tokenizeWs paragraph).foldl (wrapStep measure maxWidth) (lines, []) with hr
    unfold lineContent at hfold
    simp only [visibleChars, List.filter_nil, List.append_nil] at hfold
    by_cases h2 : r.2.isEmpty = true
    · rw [if_pos h2]
      have hr2 : r.2 = [] := by
        cases hq : r.2 with
        | nil => rfl
        | cons x xs => rw [hq] at h2; simp [List.isEmpty] at h2
      rw [hjoin] at hfold
      have := hfold
      rw [hr2] at this
      simp only [visibleChars, List.filter_nil, List.append_nil] at this
      exact this
    · rw [if_neg h2]
      rw [hjoin] at hfold
      simp only [List.map_append, List.map_cons, List.map_nil, List.join_append,
        List.join_cons, List.join_nil, List.append_nil, visibleChars_trimEnd]
      exact hfold

/-- `splitOnCode` always yields at least one segment. -/
theorem splitOnCode_ne_nil (sep : Nat) (s : JStr) : splitOnCode sep s ≠ [] := by
  cases s with
  | nil => simp [splitOnCode]
  | cons c tl =>
      unfold splitOnCode
      rcases splitOnCode sep tl with _ | ⟨h, rest⟩
      · by_cases hc : c = sep <;> simp [hc]
      · by_cases hc : c = sep <;> simp [hc]

/-- `visibleChars` on a cons. -/
theorem visibleChars_cons (c : Nat) (tl : JStr) :
    visibleChars (c :: tl) = (if isWsCode c = true then [] else [c]) ++ visibleChars tl := by
  unfold visibleChars
  rw [List.filter_cons]
  by_cases h : isWsCode c
  · simp [h]
  · simp [h]

/-- Splitting at newlines (a whitespace character) preserves visible
characters. -/
theorem splitOnCode_visible (s : JStr) :
    ((splitOnCode 10 s).map visibleChars).join = visibleChars s := by
  induction s with
  | nil => simp [splitOnCode, visibleChars]
  | cons c tl ih =>
      rcases hs : splitOnCode 10 tl with _ | ⟨h, rest⟩
      · exact absurd hs (splitOnCode_ne_nil 10 tl)
      · rw [hs] at ih
        have hdef : splitOnCode 10 (c :: tl) =
            if c = 10 then [] :: h :: rest else (c :: h) :: rest := by
          show (match splitOnCode 10 tl with
                | [] => if c = 10 then [[], []] else [[c]]
                | h2 :: rest2 => if c = 10 then [] :: h2 :: rest2 else (c :: h2) :: rest2) = _
          rw [hs]
        rw [hdef]
        by_cases hc : c = 10
        · subst hc
          rw [if_pos rfl, visibleChars_cons,
            if_pos (show isWsCode 10 = true from by decide)]
          simp only [List.map_cons, List.join_cons, List.nil_append]
          rw [← ih]
          rfl
        · rw [if_neg hc]
          simp only [List.map_cons, List.join_cons]
          rw [visibleChars_cons c h, visibleChars_cons c tl, List.append_assoc]
          have ih2 : visibleChars h ++ (List.map visibleChars rest).flatten =
              visibleChars tl := by simpa using ih
          rw [ih2]

/-- CRLF normalization preserves visible characters (CR and LF are both
whitespace). -/
theorem normalizeCrlf_visible (s : JStr) :
    visibleChars (normalizeCrlf s) = visibleChars s := by
  induction s using normalizeCrlf.induct with
  | case1 => rfl
  | case2 tl ih =>
      show visibleChars (10 :: normalizeCrlf tl) = visibleChars (13 :: 10 :: tl)
      rw [visibleChars_cons, visibleChars_cons, visibleChars_cons, ih,
        if_pos (show isWsCode 10 = true from by decide),
        if_pos (show isWsCode 13 = true from by decide)]
      simp
  | case3 c tl hne ih =>
      rw [normalizeCrlf.eq_3 c tl hne, visibleChars_cons, visibleChars_cons, ih]

/-- The wrapper preserves the non-whitespace characters of the input, in
order. -/
theorem wrapTextByWidth_content (measure : JStr → ℚ) (maxWidth : ℚ) (text : JStr) :
    ((wrapTextByWidth measure text maxWidth).map visibleChars).join = visibleChars text := by
  unfold wrapTextByWidth
  have hgen : ∀ (ps : List JStr) (lines : List JStr),
      ((ps.foldl (wrapParagraph measure maxWidth) lines).map visibleChars).join =
        (lines.map visibleChars).join ++ ((ps.map visibleChars).join) := by
    intro ps
    induction ps with
    | nil => intro lines; simp
    | cons p ps ih =>
        intro lines
        rw [List.foldl_cons, ih, wrapParagraph_content]
        simp only [List.map_cons, List.join_cons]
        rw [List.append_assoc]
  rw [hgen]
  simp only [List.map_nil, List.join_nil, List.nil_append]
  rw [splitOnCode_visible, normalizeCrlf_visible]

/-- C10 (corrected): for every monotone measure, positive maxWidth and input
text, every line `wrapTextByWidth` returns measures at most maxWidth, or is a
single character, or is empty (the unamended claim omits the empty-line case:
empty input and blank paragraphs emit empty lines); and the returned lines
preserve every non-whitespace character of the input in its original order. -/
theorem wrap_lines_fit_or_single_or_empty_and_preserve_visible
    (measure : JStr → ℚ) (maxWidth : ℚ) (text : JStr)
    (hpos : 0 < maxWidth) (hm : ∀ s c, measure s ≤ measure (s ++ [c])) :
    (∀ l ∈ wrapTextByWidth measure text maxWidth,
      measure l ≤ maxWidth ∨ l.length = 1 ∨ l = []) ∧
    ((wrapTextByWidth measure text maxWidth).map visibleChars).join = visibleChars text :=
  ⟨fun l hl => wrapTextByWidth_lines_ok measure maxWidth hm text l hl,
   wrapTextByWidth_content measure maxWidth text⟩

/-- C10 counterexample to the unamended claim: with the measure constantly 5
(monotone) and maxWidth 1 (positive), the empty text wraps to a single empty
line, which neither measures at most maxWidth nor consists of a single
character. -/
theorem wrap_empty_line_counterexample :
    wrapTextByWidth (fun _ => (5 : ℚ)) [] 1 = [[]] ∧
    ¬ ((fun (_ : JStr) => (5 : ℚ)) [] ≤ 1) ∧ ([] : JStr).length ≠ 1 :=
  ⟨rfl, by norm_num, by decide⟩

/-- Witness for C10: the theorem applied at the character-count measure,
width 2 and the text "ab cd". -/
theorem wrap_lines_fit_witness :
    (∀ l ∈ wrapTextByWidth (fun s => (s.length : ℚ)) (jstr "ab cd") 2,
      ((l.length : ℚ) ≤ 2 ∨ l.length = 1 ∨ l = [])) ∧
    ((wrapTextByWidth (fun s => (s.length : ℚ)) (jstr "ab cd") 2).map visibleChars).join
      = visibleChars (jstr "ab cd") :=
  wrap_lines_fit_or_single_or_empty_and_preserve_visible
    (fun s => (s.length : ℚ)) 2 (jstr "ab cd") (by norm_num)
    (by intro s c; push_cast [List.length_append]; linarith)
